import Mathlib

/-!
# Rate-limiter config storage: verification of the Config Service core

Shallow embedding of the TypeScript rate-limiter configuration store
(`ConfigService` in `services/config-service-improved.ts`, the enhanced
validation engine in `utils/validation/enhanced-validation.ts`, the GET
handler's pagination-parameter validation, and the storage-key constants).

Modelling conventions:

* Storage values are JSON: every `storage.put` in the source stores
  `JSON.stringify(v)` and every read parses the stored string, so the store is
  modelled at the parsed-value level as an association list from string keys to
  JSON values (`Jv`).  `JSON.stringify` of any stored value is a nonempty
  string, hence truthy; a stored empty string is unrepresentable, matching the
  fact that the source never writes one.
* JSON numbers are modelled as integers (`Int`); all numeric fields the service
  manipulates (priorities, limits, periods, HTTP statuses, timestamps) are
  integers in every reachable state.
* Host primitives that are not part of this repository are parameters: regular
  expression compilation (`new RegExp`) and date parsing (`new Date(...)
  .getTime()` truthiness) are fields of a `Host` record, while `Date.now()`,
  `new Date().toISOString()` and `crypto.randomUUID()` are fields of a `Clock`
  record supplied per operation call (the source takes all its timestamps for
  one operation within the same millisecond tick).
* The actor runtime serialises requests, so each public operation is a pure
  function from service state to service state; the fan-out `Promise.all`
  writes of an operation touch the keys in their creation order.
* `throw` inside an operation is modelled as an `Except.error` result paired
  with the storage state at the moment of the throw, so "zero writes on
  failure" is an actual statement about the returned state.
-/

/-- A JSON value, the parsed form of everything the service stores or
receives. -/
inductive Jv where
  | null : Jv
  | bool : Bool → Jv
  | num : Int → Jv
  | str : String → Jv
  | arr : List Jv → Jv
  | obj : List (String × Jv) → Jv
deriving Repr

/-- JavaScript truthiness of a (defined) value; `Jv.null` also stands for
`undefined`, which is likewise falsy. NaN does not arise in the integer
number model. -/
def Jv.truthy : Jv → Bool
  | .null => false
  | .bool b => b
  | .num n => n != 0
  | .str s => s != ""
  | .arr _ => true
  | .obj _ => true

/-- JavaScript `typeof` (arrays and `null` are `"object"`). -/
def Jv.jsTypeof : Jv → String
  | .null => "object"
  | .bool _ => "boolean"
  | .num _ => "number"
  | .str _ => "string"
  | .arr _ => "array-or-object"
  | .obj _ => "object"

/-- The type tag computed by the source's `validateField` helper: `typeof`
with special cases mapping arrays to `"array"` and `null` to `"null"`. -/
def Jv.typeTag : Jv → String
  | .null => "null"
  | .bool _ => "boolean"
  | .num _ => "number"
  | .str _ => "string"
  | .arr _ => "array"
  | .obj _ => "object"

/-- Property lookup on an object; `none` models `undefined` (absent property
or property access on a non-object primitive). -/
def Jv.get : Jv → String → Option Jv
  | .obj fs, k => (fs.find? (fun p => p.1 == k)).map (·.2)
  | _, _ => none

/-- Property lookup defaulting to `Jv.null` (i.e. the JS `undefined` that a
missing property yields, which is falsy exactly like our `null`). -/
def Jv.getD (j : Jv) (k : String) : Jv := (j.get k).getD .null

/-- The JS `in` operator restricted to own properties of objects. -/
def Jv.hasProp : Jv → String → Bool
  | .obj fs, k => fs.any (fun p => p.1 == k)
  | _, _ => false

/-- Replace the binding for `k` in an object field list, or append it. This is
the effect of a spread-with-override `{...o, k: v}` on JS property order. -/
def setField : List (String × Jv) → String → Jv → List (String × Jv)
  | [], k, v => [(k, v)]
  | (k', v') :: fs, k, v =>
      if k' == k then (k, v) :: fs else (k', v') :: setField fs k v

/-- `{...base, k: v}`: on an object, replace-or-append the property; spreading
a falsy primitive yields an object with only the new property (the string
corner case, whose spread enumerates characters, never reaches this code). -/
def Jv.set (base : Jv) (k : String) (v : Jv) : Jv :=
  match base with
  | .obj fs => .obj (setField fs k v)
  | _ => .obj [(k, v)]

/-- Drop the binding for `k` from an object field list. -/
def removeField : List (String × Jv) → String → List (String × Jv)
  | [], _ => []
  | (k', v) :: rest, k =>
      if k' = k then removeField rest k else (k', v) :: removeField rest k

/-- `{...base, k: undefined}` followed by `JSON.stringify`: the property is
dropped from the serialised object. -/
def Jv.remove (base : Jv) (k : String) : Jv :=
  match base with
  | .obj fs => .obj (removeField fs k)
  | _ => .obj []

/-- Whether a value is the given string (JS strict equality against a string). -/
def Jv.isStr : Jv → String → Bool
  | .str t, s => t == s
  | _, _ => false

/-- Membership of a value in a string list (JS `list.includes(v)` where the
list holds strings): true only for an equal string value. -/
def Jv.strMem (j : Jv) (l : List String) : Bool :=
  match j with
  | .str s => l.contains s
  | _ => false

/-- The elements of an array value; `[]` for anything else (non-array values
never reach the source's array iterations in reachable states). -/
def Jv.elems : Jv → List Jv
  | .arr xs => xs
  | _ => []

/-- JS template-literal coercion `${v}` for the values that can appear as ids
in reachable states (strings; `null` stands for an `undefined` id slot). -/
def Jv.asKeyPart : Jv → String
  | .str s => s
  | .null => "null"
  | .bool b => if b then "true" else "false"
  | .num n => toString n
  | .arr _ => ""
  | .obj _ => "[object Object]"

/-- The string id of a rule value, when it has one: a nonempty string `id`
property.  (Validation guarantees exactly this on every stored rule.) -/
def ruleIdOf (r : Jv) : Option String :=
  match r.get "id" with
  | some (.str s) => if s = "" then none else some s
  | _ => none

section StorageModel

/-- The Durable Object storage: an association list from string keys to parsed
JSON values. -/
abbrev Storage := List (String × Jv)

/-- `storage.get(key)` (readback of the parsed stored value). -/
def sget : Storage → String → Option Jv
  | [], _ => none
  | (k', v) :: rest, k => if k' = k then some v else sget rest k

/-- `storage.get(key)` with a default for the absent case. -/
def sgetD (st : Storage) (k : String) (d : Jv) : Jv := (sget st k).getD d

/-- `storage.put(key, value)`: replace the binding in place or append it. -/
def sput : Storage → String → Jv → Storage
  | [], k, v => [(k, v)]
  | (k', v') :: rest, k, v =>
      if k' = k then (k, v) :: rest else (k', v') :: sput rest k v

/-- `storage.delete(key)`. -/
def sdel : Storage → String → Storage
  | [], _ => []
  | (k', v) :: rest, k => if k' = k then sdel rest k else (k', v) :: sdel rest k

@[simp] theorem sget_nil (k : String) : sget [] k = none := rfl

@[simp] theorem sget_sput_self (st : Storage) (k : String) (v : Jv) :
    sget (sput st k v) k = some v := by
  induction st with
  | nil => simp [sget, sput]
  | cons p rest ih =>
    by_cases h : p.1 = k
    · simp [sget, sput, h]
    · simp [sget, sput, h, ih]

theorem sget_sput_ne (st : Storage) (k k' : String) (v : Jv) (h : k' ≠ k) :
    sget (sput st k v) k' = sget st k' := by
  induction st with
  | nil => simp [sget, sput, Ne.symm h]
  | cons p rest ih =>
    by_cases hp : p.1 = k
    · have hpk' : p.1 ≠ k' := fun hc => h (hc ▸ hp)
      simp [sget, sput, hp, hpk', Ne.symm h]
    · by_cases hq : p.1 = k'
      · simp [sget, sput, hp, hq, h]
      · simp [sget, sput, hp, hq, ih]

@[simp] theorem sget_sdel_self (st : Storage) (k : String) :
    sget (sdel st k) k = none := by
  induction st with
  | nil => simp [sdel]
  | cons p rest ih =>
    by_cases h : p.1 = k
    · simp [sdel, h, ih]
    · simp [sget, sdel, h, ih]

theorem sget_sdel_ne (st : Storage) (k k' : String) (h : k' ≠ k) :
    sget (sdel st k) k' = sget st k' := by
  induction st with
  | nil => simp [sdel]
  | cons p rest ih =>
    by_cases hp : p.1 = k
    · have hpk' : p.1 ≠ k' := fun hc => h (hc ▸ hp)
      simp [sget, sdel, hp, hpk', ih, Ne.symm h]
    · by_cases hq : p.1 = k'
      · simp [sget, sdel, hp, hq, h]
      · simp [sget, sdel, hp, hq, ih]

end StorageModel

section ValidationEngine

/-- Host primitives used by the validation engine that live outside this
repository: `regexErr v` is `some msg` when `new RegExp(v)` throws (with `msg`
the message the catch block extracts), `none` when the pattern compiles;
`dateOk v` is the truthiness of `(new Date(v)).getTime()`. -/
structure Host where
  regexErr : Jv → Option String
  dateOk : Jv → Bool

/-- Allowed condition operators (`validOperators` in `validateCondition`). -/
def validOperators : List String :=
  ["equals", "notEquals", "contains", "notContains", "startsWith", "endsWith",
   "matches", "exists", "notExists"]

/-- Operators that require a `value` (`valueRequiredOperators`). -/
def valueRequiredOperators : List String :=
  ["equals", "notEquals", "contains", "notContains", "startsWith", "endsWith",
   "matches"]

/-- Allowed action types (`validTypes` in `validateAction`). -/
def validTypes : List String := ["block", "allow", "challenge", "log", "rateLimit"]

/-- The rule-id format regular expression `/^[a-zA-Z0-9-_]+$/`. -/
def idFormatOk (s : String) : Bool :=
  s != "" && s.toList.all (fun ch => ch.isAlphanum || ch == '-' || ch == '_')

/-- Errors produced by the source's `validateField(o, f, expectedType, result,
required)`: a missing-required-field error, or a type-mismatch error computed
from `typeof` with the array/null special cases (`Jv.typeTag`).

The mutable `ValidationResult` of the source only ever appends to its error
and warning arrays, so each validator is modelled as the list of entries it
appends, and the final result is their concatenation in call order. -/
def fieldErrors (o : Jv) (f : String) (expected : String) (required : Bool) :
    List (String × String) :=
  if !o.hasProp f then
    if required then [(f, "Missing required field: " ++ f)] else []
  else
    let t := (o.getD f).typeTag
    if t ≠ expected then
      [(f, s!"Invalid type for {f}: expected {expected}, got {t}")]
    else []

/-- Errors of `validateRuleId(id, existingIds, result, exemptId)`. -/
def ruleIdErrors (idv : Jv) (existingIds : List String) (exemptId : Option String) :
    List (String × String) :=
  if !idv.truthy then [("id", "Rule ID is required")]
  else
    match idv with
    | .str s =>
        (if existingIds.contains s && !(exemptId == some s) then
          [("id", "Rule ID \"" ++ s ++ "\" already exists")]
        else [])
        ++ (if !idFormatOk s then
          [("id", "Rule ID must contain only alphanumeric characters, hyphens, and underscores")]
        else [])
    | _ => [("id", "Rule ID must be a string")]

/-- Errors of `validateRateLimit`. -/
def rateLimitErrors (rl : Jv) : List (String × String) :=
  if !rl.truthy || rl.jsTypeof != "object" then
    [("rateLimit", "Missing or invalid rateLimit object")]
  else
    fieldErrors rl "limit" "number" true
    ++ fieldErrors rl "period" "number" true
    ++ (match rl.get "limit" with
        | some (.num n) =>
            if n ≤ 0 then [("rateLimit.limit", "Rate limit must be greater than 0")] else []
        | _ => [])
    ++ (match rl.get "period" with
        | some (.num n) =>
            if n ≤ 0 then [("rateLimit.period", "Rate limit period must be greater than 0")] else []
        | _ => [])

/-- Map an index-aware error producer over a list, concatenating the results,
starting at index `i` (models the source's `forEach((x, index) => ...)`). -/
def mapIdx {α β : Type} (f : Nat → α → List β) : Nat → List α → List β
  | _, [] => []
  | i, x :: xs => f i x ++ mapIdx f (i + 1) xs

/-- Per-parameter check inside `validateFingerprint`: a parameter must be a
string or a truthy object with a string `name` property. -/
def fingerprintParamErrors (i : Nat) (p : Jv) : List (String × String) :=
  match p with
  | .str _ => []
  | _ =>
      if p.jsTypeof == "object" && p.truthy
          && (match p.get "name" with | some (.str _) => true | _ => false) then []
      else
        [(s!"fingerprint.parameters[{i}]",
          "Fingerprint parameter must be a string or an object with a name property")]

/-- Errors of `validateFingerprint` (the empty-parameters case is a warning,
collected separately). -/
def fingerprintErrors (fp : Jv) : List (String × String) :=
  if !fp.truthy || fp.jsTypeof != "object" then
    [("fingerprint", "Missing or invalid fingerprint object")]
  else
    match fp.get "parameters" with
    | some (.arr ps) => mapIdx fingerprintParamErrors 0 ps
    | _ => [("fingerprint.parameters", "Fingerprint parameters must be an array")]

/-- Errors of `validateCondition(condition, index, path, result)`; message
interpolations coerce the operator value the way a JS template literal does
(`Jv.asKeyPart`). -/
def condErrors (h : Host) (path : String) (i : Nat) (cond : Jv) :
    List (String × String) :=
  if !cond.truthy || cond.jsTypeof != "object" then
    [(s!"{path}[{i}]", "Invalid condition object")]
  else
    fieldErrors cond "field" "string" true
    ++ fieldErrors cond "operator" "string" true
    ++ fieldErrors cond "value" "string" false
    ++ (let op := cond.getD "operator"
        if op.truthy && !(op.strMem validOperators) then
          [(s!"{path}[{i}].operator",
            "Invalid operator: " ++ op.asKeyPart ++ ". Must be one of: "
              ++ String.intercalate ", " validOperators)]
        else [])
    ++ (let op := cond.getD "operator"
        if op.strMem valueRequiredOperators && !(cond.hasProp "value") then
          [(s!"{path}[{i}].value", "Value is required for operator: " ++ op.asKeyPart)]
        else [])
    ++ (if (cond.getD "operator").isStr "matches" && (cond.getD "value").truthy then
          match h.regexErr (cond.getD "value") with
          | some msg => [(s!"{path}[{i}].value", "Invalid regex pattern: " ++ msg)]
          | none => []
        else [])

/-- Errors of `validateAction(action, path, result)`. -/
def actionErrors (a : Jv) (path : String) : List (String × String) :=
  if !a.truthy || a.jsTypeof != "object" then [(path, "Invalid action object")]
  else
    fieldErrors a "type" "string" true
    ++ (let t := a.getD "type"
        if t.truthy && !(t.strMem validTypes) then
          [(path ++ ".type",
            "Invalid action type: " ++ t.asKeyPart ++ ". Must be one of: "
              ++ String.intercalate ", " validTypes)]
        else [])
    ++ (if (a.getD "type").isStr "block" then
          fieldErrors a "status" "number" false
          ++ (match a.get "status" with
              | some (.num n) =>
                  if n != 0 && (n < 400 || n > 599) then
                    [(path ++ ".status",
                      "Block status must be a valid HTTP error code (400-599)")]
                  else []
              | _ => [])
        else [])

/-- Errors of `validateMatch(match, path, result)`. -/
def matchErrors (h : Host) (m : Jv) (path : String) : List (String × String) :=
  if !m.truthy || m.jsTypeof != "object" then [(path, "Invalid match object")]
  else
    (match m.get "conditions" with
     | some (.arr cs) => mapIdx (fun i c => condErrors h (path ++ ".conditions") i c) 0 cs
     | _ => [(path ++ ".conditions", "Conditions must be an array")])
    ++ actionErrors (m.getD "action") (path ++ ".action")

/-- All errors of `validateRule(rule, existingIds, exemptId)`, in the order
the source's validators append them. -/
def validateRuleErrors (h : Host) (rule : Jv) (existingIds : List String)
    (exemptId : Option String) : List (String × String) :=
  if !rule.truthy then [("rule", "Rule is null or undefined")]
  else if rule.jsTypeof ≠ "object" then
    [("rule", "Invalid rule type: " ++ rule.jsTypeof)]
  else
    ruleIdErrors (rule.getD "id") existingIds exemptId
    ++ fieldErrors rule "name" "string" true
    ++ fieldErrors rule "description" "string" true
    ++ fieldErrors rule "priority" "number" false
    ++ (if rule.hasProp "createdAt" && !h.dateOk (rule.getD "createdAt") then
          [("createdAt", "Invalid date format for createdAt")]
        else [])
    ++ (if rule.hasProp "updatedAt" && !h.dateOk (rule.getD "updatedAt") then
          [("updatedAt", "Invalid date format for updatedAt")]
        else [])
    ++ rateLimitErrors (rule.getD "rateLimit")
    ++ fingerprintErrors (rule.getD "fingerprint")
    ++ matchErrors h (rule.getD "initialMatch") "initialMatch"
    ++ (match rule.get "elseIfActions" with
        | some (.arr ms) => mapIdx (fun i m => matchErrors h m s!"elseIfActions[{i}]") 0 ms
        | _ => [("elseIfActions", "elseIfActions must be an array")])
    ++ (if rule.hasProp "elseAction" then actionErrors (rule.getD "elseAction") "elseAction"
        else [])

/-- The single warning `validateRule` can produce: an empty fingerprint
parameter list. -/
def validateRuleWarnings (rule : Jv) : List (String × String) :=
  if !rule.truthy || rule.jsTypeof != "object" then []
  else
    let fp := rule.getD "fingerprint"
    if !fp.truthy || fp.jsTypeof != "object" then []
    else
      match fp.get "parameters" with
      | some (.arr ps) =>
          if ps.isEmpty then
            [("fingerprint.parameters",
              "Fingerprint has no parameters, rule will apply to all requests")]
          else []
      | _ => []

/-- Structured result of a validation run (`ValidationResult` of the source):
`valid` starts `true` and `addError` is the only writer setting it `false`, so
it is exactly emptiness of the accumulated error list. -/
structure ValidationResult where
  valid : Bool
  errors : List (String × String)
  warnings : List (String × String)
deriving Repr, DecidableEq

/-- `validateRule(rule, existingIds, exemptId)` of
`utils/validation/enhanced-validation.ts`. -/
def validateRule (h : Host) (rule : Jv) (existingIds : List String)
    (exemptId : Option String) : ValidationResult :=
  let es := validateRuleErrors h rule existingIds exemptId
  { valid := es.isEmpty, errors := es, warnings := validateRuleWarnings rule }

end ValidationEngine

section ConfigService

/-- Storage key of a rule (`RULE_PREFIX + id`, i.e. `rule_<id>`). -/
def ruleKey (id : String) : String := "rule_" ++ id

/-- Storage key of a rule's version history (`VERSION_PREFIX + id`). -/
def versionsKey (id : String) : String := "versions_" ++ id

/-- The rule-id index key (`RULE_IDS_KEY = 'rule_ids'`). -/
def idsKey : String := "rule_ids"

/-- `CACHE_TTL` (milliseconds) from `constants/index.ts`. -/
def CACHE_TTL : Nat := 60000

/-- `VERSION_LIMIT` from `constants/index.ts`. -/
def VERSION_LIMIT : Nat := 20

/-- Per-call host clock: `Date.now()`, `new Date().toISOString()` and
`crypto.randomUUID()` as observed by one operation call. -/
structure Clock where
  now : Nat
  nowIso : String
  uuid : String

/-- The mutable fields of the `ConfigService` singleton: the Durable Object
storage plus the in-memory cache pair (`cachedConfig`, `lastConfigFetch`). -/
structure SvcState where
  storage : Storage
  cachedConfig : Option (List Jv)
  lastConfigFetch : Nat

/-- The parsed rule-id index (`JSON.parse(ruleIdsStr || '[]')`): the element
list of the stored array, `[]` when the key is absent or (unreachably) holds a
non-array. -/
def idsEntries (st : Storage) : List Jv := (sgetD st idsKey (.arr [])).elems

/-- The string members of the index, as compared by `includes` against a
string id (non-string entries never equal a string, so dropping them preserves
every `includes` answer the source computes). -/
def strIds (st : Storage) : List String :=
  (idsEntries st).filterMap (fun e => match e with | .str s => some s | _ => none)

/-- Pagination metadata as returned to clients. -/
structure PageMeta where
  currentPage : Int
  pageSize : Int
  totalItems : Int
  totalPages : Int
  hasNextPage : Bool
  hasPrevPage : Bool
deriving Repr, DecidableEq

/-- Pagination request parameters. -/
structure PageParams where
  page : Int
  limit : Int
deriving Repr, DecidableEq

/-- Result shape of `getConfig`: the full rule list, or one page plus
metadata. -/
inductive ConfigResult where
  | full (rules : List Jv)
  | paged (rules : List Jv) (meta : PageMeta)
deriving Repr

/-- `Math.ceil(a / b)` for an integer `a ≥ 0` and `b > 0`. -/
def jsCeilDiv (a b : Int) : Int := (a + b - 1) / b

/-- The page-window computation of `getConfig` (lines building `totalPages`,
`currentPage`, `startIndex`, `endIndex` and the metadata object); `totalPages
|| 1` is `1` exactly when `totalPages` is `0`. Returns the metadata and the
`(startIndex, endIndex)` slice bounds. -/
def pageWindow (totalItems page limit : Int) : PageMeta × Int × Int :=
  let totalPages := jsCeilDiv totalItems limit
  let currentPage := max 1 (min page (if totalPages = 0 then 1 else totalPages))
  let startIndex := (currentPage - 1) * limit
  let endIndex := min (startIndex + limit) totalItems
  (⟨currentPage, limit, totalItems, totalPages,
      decide (currentPage < totalPages), decide (currentPage > 1)⟩,
    startIndex, endIndex)

/-- `xs.slice(a, b)` for `0 ≤ a`. -/
def jsSlice {α : Type} (xs : List α) (a b : Int) : List α :=
  (xs.drop a.toNat).take (b - a).toNat

/-- The sort key `(rule.priority ?? 999)`; stored rules carry an integer
priority or none at all. -/
def priorityOf (r : Jv) : Int :=
  match r.get "priority" with
  | some (.num n) => n
  | _ => 999

/-- Stable insertion of a rule into a priority-sorted list (an element with an
equal key goes after the existing ones, as in the stable JS `Array.sort`). -/
def insertByPriority (x : Jv) : List Jv → List Jv
  | [] => [x]
  | y :: ys => if priorityOf x < priorityOf y then x :: y :: ys else y :: insertByPriority x ys

/-- `rules.sort((a, b) => (a.priority ?? 999) - (b.priority ?? 999))`,
modelled as a stable insertion sort. -/
def sortByPriority (rs : List Jv) : List Jv :=
  rs.foldl (fun acc r => insertByPriority r acc) []

/-- Fan-out fetch of the rules named by the index entries
(`` storage.get(`rule_${id}`) `` per entry, dropping misses; parse failures are
unrepresentable at the value level). -/
def fetchRules (st : Storage) (entries : List Jv) : List Jv :=
  entries.filterMap (fun e => sget st (ruleKey e.asKeyPart))

/-- `ConfigService.getConfig(pagination?)`. -/
def getConfig (c : Clock) (st : SvcState) (pg : Option PageParams) :
    SvcState × ConfigResult :=
  let entries := idsEntries st.storage
  if entries.isEmpty then
    match pg with
    | some p => (st, .paged [] ⟨p.page, p.limit, 0, 0, false, false⟩)
    | none => ({ st with cachedConfig := some [], lastConfigFetch := c.now }, .full [])
  else
    match pg, st.cachedConfig with
    | none, some cc =>
        if c.now - st.lastConfigFetch < CACHE_TTL then (st, .full cc)
        else
          let rules := sortByPriority (fetchRules st.storage entries)
          ({ st with cachedConfig := some rules, lastConfigFetch := c.now }, .full rules)
    | none, none =>
        let rules := sortByPriority (fetchRules st.storage entries)
        ({ st with cachedConfig := some rules, lastConfigFetch := c.now }, .full rules)
    | some p, _ =>
        let w := pageWindow (entries.length : Int) p.page p.limit
        let rules := sortByPriority (fetchRules st.storage (jsSlice entries w.2.1 w.2.2))
        (st, .paged rules w.1)

/-- `ConfigService.getRule(ruleId)`: direct storage key, then the cached
snapshot whenever one is present, then a full `getConfig()`. -/
def getRule (c : Clock) (st : SvcState) (ruleId : String) : SvcState × Option Jv :=
  match sget st.storage (ruleKey ruleId) with
  | some r => (st, some r)
  | none =>
    let cacheHit :=
      match st.cachedConfig with
      | some cc => cc.find? (fun r => (r.getD "id").isStr ruleId)
      | none => none
    match cacheHit with
    | some r => (st, some r)
    | none =>
      match getConfig c st none with
      | (st', .full rules) => (st', rules.find? (fun r => (r.getD "id").isStr ruleId))
      | (st', .paged _ _) => (st', none)

/-- The version entry `{versionId, timestamp, rule: {...rule}}` built by
`archiveRuleVersion` (the shallow copy of an object is the object itself at
the value level). -/
def mkVersion (c : Clock) (r : Jv) : Jv :=
  .obj [("versionId", .str c.uuid), ("timestamp", .str c.nowIso), ("rule", r)]

/-- The parsed version history of a rule
(`JSON.parse(versionsStr || '[]')`), newest first. -/
def getRuleVersions (st : Storage) (ruleId : String) : List Jv :=
  (sgetD st (versionsKey ruleId) (.arr [])).elems

/-- `ConfigService.archiveRuleVersion(rule)`: logged no-op without a truthy
`id`, otherwise prepend a fresh version entry and truncate to
`VERSION_LIMIT`. -/
def archiveRuleVersion (c : Clock) (st : Storage) (rule : Option Jv) : Storage :=
  match rule with
  | none => st
  | some r =>
    if !(r.getD "id").truthy then st
    else
      let ruleId := (r.getD "id").asKeyPart
      let versions := getRuleVersions st ruleId
      sput st (versionsKey ruleId) (.arr ((mkVersion c r :: versions).take VERSION_LIMIT))

/-- `validationResult.errors[0].message` (the error list is nonempty whenever
`valid` is false). -/
def firstErrMsg (vr : ValidationResult) : String :=
  (vr.errors.head?.map (·.2)).getD ""

/-- `ConfigService.addRule(rule)`. A thrown error carries the state at the
point of the throw, so failure paths visibly perform no writes. The
best-effort notification emission does not touch service state and is not
modelled. -/
def addRule (h : Host) (c : Clock) (st : SvcState) (rule : Jv) :
    SvcState × Except String Jv :=
  let entries := idsEntries st.storage
  let vr := validateRule h rule (strIds st.storage) none
  if !vr.valid then (st, .error ("Invalid rule: " ++ firstErrMsg vr))
  else
    let r1 := if (rule.getD "createdAt").truthy then rule
              else rule.set "createdAt" (.str c.nowIso)
    let r2 := r1.set "updatedAt" (.str c.nowIso)
    let idv := r2.getD "id"
    let storage1 := sput st.storage idsKey (.arr (entries ++ [idv]))
    let storage2 := sput storage1 (ruleKey idv.asKeyPart) r2
    let storage3 := archiveRuleVersion c storage2 (some r2)
    ({ storage := storage3, cachedConfig := none, lastConfigFetch := 0 }, .ok r2)

/-- `ConfigService.updateRule(ruleId, updatedRule)`. -/
def updateRule (h : Host) (c : Clock) (st : SvcState) (ruleId : String)
    (updatedRule : Jv) : SvcState × Except String Jv :=
  match sget st.storage (ruleKey ruleId) with
  | none => (st, .error "Rule not found")
  | some currentRule =>
    let vr := validateRule h updatedRule (strIds st.storage) (some ruleId)
    if !vr.valid then (st, .error ("Invalid rule: " ++ firstErrMsg vr))
    else
      let storage1 := archiveRuleVersion c st.storage (some currentRule)
      let f1 := match currentRule.get "createdAt" with
        | some v => updatedRule.set "createdAt" v
        | none => updatedRule.remove "createdAt"
      let finalRule := f1.set "updatedAt" (.str c.nowIso)
      let storage2 := sput storage1 (ruleKey ruleId) finalRule
      ({ storage := storage2, cachedConfig := none, lastConfigFetch := 0 }, .ok finalRule)

/-- `ConfigService.deleteRule(ruleId)`: `false` without an error when the rule
key is absent. -/
def deleteRule (c : Clock) (st : SvcState) (ruleId : String) : SvcState × Bool :=
  match sget st.storage (ruleKey ruleId) with
  | none => (st, false)
  | some rule =>
    let storage1 := archiveRuleVersion c st.storage (some rule)
    let entries := idsEntries storage1
    let storage2 := sput storage1 idsKey (.arr (entries.filter (fun e => !(e.isStr ruleId))))
    let storage3 := sdel storage2 (ruleKey ruleId)
    ({ storage := storage3, cachedConfig := none, lastConfigFetch := 0 }, true)

/-- `ConfigService.reorderRules(ruleIds)`: reject at the first requested id
missing from the index, then reject a length mismatch, then rewrite each
fetched rule with its position as `priority` (writes keyed by the fetched
rule's own `id` field, in request order). -/
def reorderRules (c : Clock) (st : SvcState) (ruleIds : List String) :
    SvcState × Except String (List Jv) :=
  let entries := idsEntries st.storage
  match ruleIds.find? (fun i => !(entries.any (fun e => e.isStr i))) with
  | some missing => (st, .error ("Rule with ID " ++ missing ++ " not found"))
  | none =>
    if ruleIds.length ≠ entries.length then
      (st, .error "All rules must be included in the reordering")
    else
      let rules := ruleIds.filterMap (fun i => sget st.storage (ruleKey i))
      let stamped := ((List.range rules.length).zip rules).map (fun p =>
        ((p.2.getD "id").asKeyPart,
          (p.2.set "priority" (.num (p.1 : Int))).set "updatedAt" (.str c.nowIso)))
      let storage' := stamped.foldl (fun acc p => sput acc (ruleKey p.1) p.2) st.storage
      ({ storage := storage', cachedConfig := none, lastConfigFetch := 0 },
        .ok (stamped.map (·.2)))

/-- `ConfigService.revertRule(ruleId, versionId)`. -/
def revertRule (c : Clock) (st : SvcState) (ruleId versionId : String) :
    SvcState × Except String Jv :=
  let versions := getRuleVersions st.storage ruleId
  match versions.find? (fun v => (v.getD "versionId").isStr versionId) with
  | none => (st, .error "Version not found")
  | some version =>
    let vrule := version.getD "rule"
    match sget st.storage (ruleKey ruleId) with
    | none =>
      let entries := idsEntries st.storage
      let storage1 :=
        if entries.any (fun e => e.isStr ruleId) then st.storage
        else sput st.storage idsKey (.arr (entries ++ [.str ruleId]))
      let restoredRule := vrule.set "updatedAt" (.str c.nowIso)
      let storage2 := sput storage1 (ruleKey ruleId) restoredRule
      ({ storage := storage2, cachedConfig := none, lastConfigFetch := 0 }, .ok restoredRule)
    | some currentRule =>
      let storage1 := archiveRuleVersion c st.storage (some currentRule)
      let updatedRule := vrule.set "updatedAt" (.str c.nowIso)
      let storage2 := sput storage1 (ruleKey ruleId) updatedRule
      ({ storage := storage2, cachedConfig := none, lastConfigFetch := 0 }, .ok updatedRule)

/-- `ConfigService.migrateFromOldFormat()`: no-op success when the index key
exists; initialise an empty index when the legacy blob is absent; fail without
writes when it is not an array; otherwise fan the rules out into per-rule keys
(skipping entries without a truthy id), rewrite each existing version history
under its unchanged key, and store the index (an idless entry contributes the
JSON `null` that `stringify` makes of `undefined`). -/
def migrateFromOldFormat (st : SvcState) : SvcState × Bool :=
  match sget st.storage idsKey with
  | some _ => (st, true)
  | none =>
    match sget st.storage "rules" with
    | none => ({ st with storage := sput st.storage idsKey (.arr []) }, true)
    | some oldJ =>
      match oldJ with
      | .arr oldRules =>
        let storage1 := oldRules.foldl (fun acc r =>
          if !(r.getD "id").truthy then acc
          else
            let rid := (r.getD "id").asKeyPart
            let acc1 := sput acc (ruleKey rid) r
            match sget acc1 (versionsKey rid) with
            | some vs => sput acc1 (versionsKey rid) vs
            | none => acc1) st.storage
        let ruleIds := oldRules.map (fun r => r.getD "id")
        let storage2 := sput storage1 idsKey (.arr ruleIds)
        ({ st with storage := storage2 }, true)
      | _ => (st, false)

end ConfigService

section GetHandlerPagination

/-- The GET handler's `validPage`: a parsed positive page number, else `1`
(`none` models a missing or non-numeric parameter, whose `parseInt` result is
the default `1` or `NaN`). -/
def validPage (page : Option Int) : Int :=
  match page with
  | some p => if 0 < p then p else 1
  | none => 1

/-- The GET handler's `validLimit`: a parsed limit in `(0, 100]`, else the
default `10`. -/
def validLimit (limit : Option Int) : Int :=
  match limit with
  | some l => if 0 < l ∧ l ≤ 100 then l else 10
  | none => 10

/-- Modelled from the spec: the §4.4 Pagination Helper
`paginate(totalItems, page, limit)` exactly as worded — `limit` clamped into
`[1,100]`, `page` clamped into `[1, totalPages || 1]`,
`totalPages = ceil(totalItems/limit)`, `startIndex = (page-1)*limit`,
`endIndex = min(startIndex+limit, totalItems)`, `hasNextPage = page <
totalPages`, `hasPrevPage = page > 1`. Stated for comparison against the
source's handler validation plus `getConfig` window. -/
def specPaginate (totalItems page limit : Int) : PageMeta × Int × Int :=
  let limitC := max 1 (min limit 100)
  let totalPages := jsCeilDiv totalItems limitC
  let pageC := max 1 (min page (if totalPages = 0 then 1 else totalPages))
  let startIndex := (pageC - 1) * limitC
  let endIndex := min (startIndex + limitC) totalItems
  (⟨pageC, limitC, totalItems, totalPages,
      decide (pageC < totalPages), decide (pageC > 1)⟩,
    startIndex, endIndex)

end GetHandlerPagination

section HelperLemmas

theorem str_append_cancel_left {a b c : String} (h : a ++ b = a ++ c) : b = c := by
  have hd : (a ++ b).data = (a ++ c).data := congrArg String.data h
  simp [String.data_append] at hd
  exact String.ext hd

theorem ruleKey_inj {a b : String} (h : ruleKey a = ruleKey b) : a = b :=
  str_append_cancel_left h

theorem versionsKey_inj {a b : String} (h : versionsKey a = versionsKey b) : a = b :=
  str_append_cancel_left h

theorem ruleKey_ne_versionsKey (a b : String) : ruleKey a ≠ versionsKey b := by
  intro h
  have hd : (ruleKey a).data = (versionsKey b).data := congrArg String.data h
  simp [ruleKey, versionsKey, String.data_append] at hd

theorem versionsKey_ne_idsKey (a : String) : versionsKey a ≠ idsKey := by
  intro h
  have hd : (versionsKey a).data = idsKey.data := congrArg String.data h
  simp [versionsKey, idsKey, String.data_append] at hd

/-- The key collision at the heart of several corrections: the rule key of the
id `"ids"` is the index key itself. -/
theorem ruleKey_eq_idsKey_iff (a : String) : ruleKey a = idsKey ↔ a = "ids" := by
  constructor
  · intro h
    have : "rule_" ++ a = "rule_" ++ "ids" := by simpa [ruleKey, idsKey] using h
    exact str_append_cancel_left this
  · intro h; subst h; rfl

theorem versionsKey_ne_rules (a : String) : versionsKey a ≠ "rules" := by
  intro h
  have hd : (versionsKey a).data = ("rules" : String).data := congrArg String.data h
  simp [versionsKey, String.data_append] at hd

theorem ruleKey_ne_rules (a : String) : ruleKey a ≠ "rules" := by
  intro h
  have hd : (ruleKey a).data = ("rules" : String).data := congrArg String.data h
  simp [ruleKey, String.data_append] at hd

theorem strBeqFalse {a b : String} (h : a ≠ b) : (a == b) = false := by
  simpa using h

theorem find?_setField_self (fs : List (String × Jv)) (k : String) (v : Jv) :
    (setField fs k v).find? (fun p => p.1 == k) = some (k, v) := by
  induction fs with
  | nil => simp [setField, List.find?]
  | cons p rest ih =>
    by_cases h : p.1 = k
    · simp [setField, h, List.find?]
    · simp [setField, strBeqFalse h, List.find?, ih]

theorem find?_setField_ne (fs : List (String × Jv)) (k k' : String) (v : Jv)
    (h : k' ≠ k) :
    (setField fs k v).find? (fun p => p.1 == k') = fs.find? (fun p => p.1 == k') := by
  induction fs with
  | nil => simp [setField, List.find?, strBeqFalse (Ne.symm h)]
  | cons p rest ih =>
    by_cases hp : p.1 = k
    · have hpk' : p.1 ≠ k' := fun hc => h (hc ▸ hp)
      simp [setField, hp, List.find?, strBeqFalse (Ne.symm h), strBeqFalse hpk']
    · by_cases hq : p.1 = k'
      · obtain ⟨pk, pv⟩ := p
        simp only at hp hq
        subst hq
        simp [setField, strBeqFalse hp, List.find?, strBeqFalse (Ne.symm h)]
      · simp [setField, strBeqFalse hp, List.find?, strBeqFalse hq, ih]

@[simp] theorem get_set_self (base : Jv) (k : String) (v : Jv) :
    (base.set k v).get k = some v := by
  cases base with
  | obj fs => simp [Jv.set, Jv.get, find?_setField_self]
  | null => simp [Jv.set, Jv.get, List.find?]
  | bool b => simp [Jv.set, Jv.get, List.find?]
  | num n => simp [Jv.set, Jv.get, List.find?]
  | str s => simp [Jv.set, Jv.get, List.find?]
  | arr xs => simp [Jv.set, Jv.get, List.find?]

theorem get_set_ne (base : Jv) (k k' : String) (v : Jv) (h : k' ≠ k) :
    (base.set k v).get k' = base.get k' := by
  cases base with
  | obj fs => simp [Jv.set, Jv.get, find?_setField_ne fs k k' v h]
  | null => simp [Jv.set, Jv.get, List.find?, strBeqFalse (Ne.symm h)]
  | bool b => simp [Jv.set, Jv.get, List.find?, strBeqFalse (Ne.symm h)]
  | num n => simp [Jv.set, Jv.get, List.find?, strBeqFalse (Ne.symm h)]
  | str s => simp [Jv.set, Jv.get, List.find?, strBeqFalse (Ne.symm h)]
  | arr xs => simp [Jv.set, Jv.get, List.find?, strBeqFalse (Ne.symm h)]

theorem getD_set_ne (base : Jv) (k k' : String) (v : Jv) (h : k' ≠ k) :
    (base.set k v).getD k' = base.getD k' := by
  simp [Jv.getD, get_set_ne base k k' v h]

theorem ruleIdOf_set_ne (base : Jv) (k : String) (v : Jv) (h : k ≠ "id") :
    ruleIdOf (base.set k v) = ruleIdOf base := by
  simp [ruleIdOf, get_set_ne base k "id" v (Ne.symm h)]

/-- A value with a string id is an object, and its id field is exactly that
string. -/
theorem ruleIdOf_elim {r : Jv} {rid : String} (h : ruleIdOf r = some rid) :
    r.get "id" = some (.str rid) ∧ rid ≠ "" ∧ (r.getD "id") = .str rid ∧
      (r.getD "id").truthy = true ∧ (r.getD "id").asKeyPart = rid := by
  unfold ruleIdOf at h
  cases hg : r.get "id" with
  | none => rw [hg] at h; exact absurd h (by simp)
  | some v =>
    rw [hg] at h
    cases v with
    | str s =>
      by_cases hs : s = ""
      · simp [hs] at h
      · simp [hs] at h
        subst h
        refine ⟨rfl, hs, by simp [Jv.getD, hg], ?_, by simp [Jv.getD, hg, Jv.asKeyPart]⟩
        simp [Jv.getD, hg, Jv.truthy, hs]
    | null => simp at h
    | bool b => simp at h
    | num n => simp at h
    | arr xs => simp at h
    | obj fs => simp at h

theorem archive_none (c : Clock) (st : Storage) :
    archiveRuleVersion c st none = st := rfl

theorem archive_no_id (c : Clock) (st : Storage) (r : Jv)
    (h : (r.getD "id").truthy = false) :
    archiveRuleVersion c st (some r) = st := by
  simp [archiveRuleVersion, h]

/-- After an archive, the archived rule's history is the truncated prepend. -/
theorem archive_versions_self (c : Clock) (st : Storage) (r : Jv) (rid : String)
    (h : ruleIdOf r = some rid) :
    getRuleVersions (archiveRuleVersion c st (some r)) rid =
      (mkVersion c r :: getRuleVersions st rid).take VERSION_LIMIT := by
  obtain ⟨-, -, hD, ht, hK⟩ := ruleIdOf_elim h
  simp [archiveRuleVersion, ht, hK, getRuleVersions, sgetD, sget_sput_self, Jv.elems]

/-- An archive call touches only version-history keys. -/
theorem archive_sget_other (c : Clock) (st : Storage) (r? : Option Jv) (k : String)
    (h : ∀ s, k ≠ versionsKey s) :
    sget (archiveRuleVersion c st r?) k = sget st k := by
  cases r? with
  | none => rfl
  | some r =>
    by_cases ht : (r.getD "id").truthy
    · simp only [archiveRuleVersion, ht]
      exact sget_sput_ne _ _ _ _ (h _)
    · simp [archiveRuleVersion, ht]

theorem archive_versions_other (c : Clock) (st : Storage) (r : Jv) (rid rid' : String)
    (h : ruleIdOf r = some rid) (hne : rid' ≠ rid) :
    getRuleVersions (archiveRuleVersion c st (some r)) rid' = getRuleVersions st rid' := by
  obtain ⟨-, -, -, ht, hK⟩ := ruleIdOf_elim h
  simp only [archiveRuleVersion, ht, Bool.not_true, Bool.false_eq_true, if_false, hK]
  unfold getRuleVersions sgetD
  rw [sget_sput_ne _ _ _ _ (fun hc => hne (versionsKey_inj hc))]

end HelperLemmas

section Fixtures

/-- A host whose regular-expression compiler accepts everything and whose date
parser accepts everything (no validated rule below carries a regex or date
that would engage them differently). -/
def trivialHost : Host := { regexErr := fun _ => none, dateOk := fun _ => true }

/-- A host whose compiler rejects exactly the pattern `"(unclosed"` with the
V8 message. -/
def unclosedHost : Host :=
  { regexErr := fun v =>
      if v.isStr "(unclosed" then
        some "Invalid regular expression: /(unclosed/: Unterminated group"
      else none,
    dateOk := fun _ => true }

/-- One clock tick used by concrete runs. -/
def tick : Clock :=
  { now := 1000000, nowIso := "2026-01-01T00:00:00.000Z", uuid := "uuid-1" }

/-- A well-formed rule with the given id and priority. -/
def sampleRule (id : String) (pri : Int) : Jv := .obj [
  ("id", .str id), ("name", .str id), ("description", .str "d"),
  ("rateLimit", .obj [("limit", .num 10), ("period", .num 60)]),
  ("fingerprint", .obj [("parameters", .arr [.str "ip"])]),
  ("initialMatch", .obj [
    ("conditions", .arr [.obj [
      ("field", .str "url.pathname"), ("operator", .str "equals"), ("value", .str "/api")]]),
    ("action", .obj [("type", .str "log")])]),
  ("elseIfActions", .arr []),
  ("priority", .num pri)]

/-- A service state holding two live rules `a` (priority 0) and `b`
(priority 1), with a coherent index and no cache. -/
def twoRuleState : SvcState := {
  storage := [(idsKey, .arr [.str "a", .str "b"]),
              (ruleKey "a", sampleRule "a" 0), (ruleKey "b", sampleRule "b" 1)],
  cachedConfig := none, lastConfigFetch := 0 }

/-- The `httpbun` rule of the repository's own short-form-operator tests
(`test-ts` and the `Short form operators validation` suite), whose only
non-canonical part is the `eq` operator. -/
def shortFormEqRule : Jv := .obj [
  ("id", .str "beb1f015-8a9e-4473-8d60-5372b925a68a"),
  ("order", .num 0),
  ("version", .num 0),
  ("name", .str "httpbun"),
  ("description", .str ""),
  ("rateLimit", .obj [("limit", .num 1), ("period", .num 10)]),
  ("fingerprint", .obj [("parameters", .arr [.obj [("name", .str "url.hostname")]])]),
  ("initialMatch", .obj [
    ("conditions", .arr [.obj [
      ("field", .str "url.hostname"),
      ("operator", .str "eq"),
      ("value", .str "httpbun.erfianugrah.com")]]),
    ("action", .obj [("type", .str "rateLimit")])]),
  ("elseIfActions", .arr [])]

/-- A rule carrying a `matches` condition with the unclosed-group pattern from
the spec's testable property. -/
def unclosedRegexRule : Jv := .obj [
  ("id", .str "r2"), ("name", .str "B"), ("description", .str "d"),
  ("rateLimit", .obj [("limit", .num 10), ("period", .num 60)]),
  ("fingerprint", .obj [("parameters", .arr [.str "ip"])]),
  ("initialMatch", .obj [
    ("conditions", .arr [.obj [
      ("field", .str "url.pathname"),
      ("operator", .str "matches"),
      ("value", .str "(unclosed")]]),
    ("action", .obj [("type", .str "log")])]),
  ("elseIfActions", .arr [])]

/-- A state whose cache still holds rule `r` from before that rule (and the
whole index) was wiped from storage, fetched at time 0. -/
def staleCacheState : SvcState := {
  storage := [(idsKey, .arr [])],
  cachedConfig := some [sampleRule "r" 0], lastConfigFetch := 0 }

/-- A clock 100 minutes past the stale fetch (far beyond `CACHE_TTL`). -/
def staleClock : Clock := { now := 6000000, nowIso := "t", uuid := "u" }

end Fixtures

section C3ShortFormOperators

/-- C3: the claim requires short-form operator aliases to be normalized to
canonical names before validation and storage, but no normalization exists:
`validateRule` rejects the repository's own `httpbun` test rule (operator
`eq`) with an invalid-operator error, while the repository's tests expect it
to validate. This evaluates the code at the failing input. -/
theorem c3_short_form_eq_rejected :
    (validateRule trivialHost shortFormEqRule [] none).valid = false
  ∧ (validateRule trivialHost shortFormEqRule [] none).errors =
      [("initialMatch.conditions[0].operator",
        "Invalid operator: eq. Must be one of: equals, notEquals, contains, notContains, startsWith, endsWith, matches, exists, notExists")] := by
  exact ⟨rfl, rfl⟩

end C3ShortFormOperators

section C8Pagination

/-- C8 counterexample: for a requested limit of 200 the claim's clamping
demands an effective page size of 100, but the handler validation substitutes
the default 10, so the pipeline's metadata differs from the clamped §4.4
helper. -/
theorem c8_limit_default_counterexample :
    validLimit (some 200) = 10
  ∧ (specPaginate 25 1 200).1.pageSize = 100
  ∧ (pageWindow 25 (validPage (some 1)) (validLimit (some 200))).1.pageSize = 10
  ∧ ¬((pageWindow 25 (validPage (some 1)) (validLimit (some 200))).1.pageSize =
      (specPaginate 25 1 200).1.pageSize) := by
  refine ⟨by decide, by decide, by decide, by decide⟩

/-- C8 amended: the handler replaces an out-of-range (or missing/non-numeric)
limit by the default 10 instead of clamping it into `[1,100]`, and replaces a
non-positive page by 1; for parameters that survive validation (page ≥ 1,
1 ≤ limit ≤ 100) the `getConfig` window coincides with the spec's §4.4
`paginate` formulas, the worked 25/1/10 example holds, and zero items yield
`totalPages = 0`, an empty slice and both has-flags false. -/
theorem c8_pagination_amended :
    (∀ pr lr : Option Int,
        1 ≤ validPage pr ∧ 1 ≤ validLimit lr ∧ validLimit lr ≤ 100)
  ∧ (∀ lr : Int, ¬(0 < lr ∧ lr ≤ 100) → validLimit (some lr) = 10)
  ∧ (∀ total page limit : Int, 1 ≤ limit → limit ≤ 100 →
        pageWindow total page limit = specPaginate total page limit)
  ∧ pageWindow 25 1 10 = (⟨1, 10, 25, 3, true, false⟩, 0, 10)
  ∧ (∀ (c : Clock) (st : SvcState) (p : PageParams), idsEntries st.storage = [] →
        getConfig c st (some p) =
          (st, .paged [] ⟨p.page, p.limit, 0, 0, false, false⟩)) := by
  refine ⟨?_, ?_, ?_, by decide, ?_⟩
  · intro pr lr
    refine ⟨?_, ?_, ?_⟩
    · cases pr with
      | none => simp [validPage]
      | some p => simp only [validPage]; split <;> omega
    · cases lr with
      | none => simp [validLimit]
      | some l => simp only [validLimit]; split <;> omega
    · cases lr with
      | none => simp [validLimit]
      | some l => simp only [validLimit]; split <;> omega
  · intro lr hlr
    simp only [validLimit]
    split
    · exact absurd (by omega) hlr
    · rfl
  · intro total page limit h1 h2
    have hmin : min limit 100 = limit := min_eq_left h2
    have hmax : max 1 limit = limit := max_eq_right h1
    simp [pageWindow, specPaginate, hmin, hmax]
  · intro c st p hEmpty
    simp [getConfig, hEmpty]

/-- Witness for the amended C8 theorem at concrete inputs. -/
theorem c8_pagination_amended_witness :
    pageWindow 7 2 3 = specPaginate 7 2 3
  ∧ validLimit (some 0) = 10
  ∧ 1 ≤ validPage (some (-4))
  ∧ getConfig tick { storage := [], cachedConfig := none, lastConfigFetch := 0 }
      (some { page := 1, limit := 10 }) =
      ({ storage := [], cachedConfig := none, lastConfigFetch := 0 },
        .paged [] { currentPage := 1, pageSize := 10, totalItems := 0, totalPages := 0,
                    hasNextPage := false, hasPrevPage := false }) := by
  refine ⟨c8_pagination_amended.2.2.1 7 2 3 (by decide) (by decide),
          c8_pagination_amended.2.1 0 (by decide),
          (c8_pagination_amended.1 (some (-4)) none).1,
          c8_pagination_amended.2.2.2.2 tick _ _ rfl⟩

end C8Pagination

section C4VersionArchive

/-- One archive call keeps any history within the version bound. -/
theorem archive_len_le (c : Clock) (st : Storage) (r? : Option Jv) (rid : String)
    (h : (getRuleVersions st rid).length ≤ VERSION_LIMIT) :
    (getRuleVersions (archiveRuleVersion c st r?) rid).length ≤ VERSION_LIMIT := by
  cases r? with
  | none => exact h
  | some r =>
    by_cases ht : (r.getD "id").truthy
    · simp only [archiveRuleVersion, ht, Bool.not_true, Bool.false_eq_true, if_false]
      by_cases hk : versionsKey ((r.getD "id").asKeyPart) = versionsKey rid
      · unfold getRuleVersions sgetD
        rw [hk, sget_sput_self]
        simp [Jv.elems, List.length_take]
      · unfold getRuleVersions sgetD
        rw [sget_sput_ne _ _ _ _ (fun hc => hk hc.symm)]
        exact h
    · rw [archive_no_id c st r (by simpa using ht)]
      exact h

/-- C4: archiving is a no-op without a rule or without an id; a successful
archive leaves the history equal to the truncated prepend of the fresh entry,
hence bounded by `VERSION_LIMIT` with the new entry first; and any sequence of
archive calls preserves the bound for every rule id. -/
theorem c4_archive_bounded_newest_first (c : Clock) (st : Storage) :
    archiveRuleVersion c st none = st
  ∧ (∀ r, (r.getD "id").truthy = false → archiveRuleVersion c st (some r) = st)
  ∧ (∀ r rid, ruleIdOf r = some rid →
        getRuleVersions (archiveRuleVersion c st (some r)) rid =
          (mkVersion c r :: getRuleVersions st rid).take VERSION_LIMIT
      ∧ (getRuleVersions (archiveRuleVersion c st (some r)) rid).length ≤ VERSION_LIMIT
      ∧ (getRuleVersions (archiveRuleVersion c st (some r)) rid).head? =
          some (mkVersion c r))
  ∧ (∀ (calls : List (Clock × Option Jv)) (rid : String),
        (getRuleVersions st rid).length ≤ VERSION_LIMIT →
        (getRuleVersions
            (calls.foldl (fun s p => archiveRuleVersion p.1 s p.2) st) rid).length
          ≤ VERSION_LIMIT) := by
  refine ⟨rfl, fun r h => archive_no_id c st r h, ?_, ?_⟩
  · intro r rid hid
    have he := archive_versions_self c st r rid hid
    refine ⟨he, ?_, ?_⟩
    · rw [he, List.length_take]
      exact Nat.min_le_left _ _
    · rw [he]
      rfl
  · intro calls rid
    induction calls generalizing st with
    | nil => intro h; exact h
    | cons p rest ih => intro h; exact ih _ (archive_len_le p.1 st p.2 rid h)

/-- Witness for C4 at a concrete archive call and call sequence. -/
theorem c4_archive_witness :
    getRuleVersions (archiveRuleVersion tick [] (some (sampleRule "a" 0))) "a" =
      (mkVersion tick (sampleRule "a" 0) :: getRuleVersions [] "a").take VERSION_LIMIT
  ∧ (getRuleVersions (archiveRuleVersion tick [] (some (sampleRule "a" 0))) "a").head? =
      some (mkVersion tick (sampleRule "a" 0))
  ∧ archiveRuleVersion tick [] (some (.obj [("name", .str "x")])) = []
  ∧ (getRuleVersions
        ([(tick, some (sampleRule "a" 0)), (tick, some (sampleRule "a" 1))].foldl
          (fun s p => archiveRuleVersion p.1 s p.2) []) "a").length ≤ VERSION_LIMIT := by
  refine ⟨((c4_archive_bounded_newest_first tick []).2.2.1 (sampleRule "a" 0) "a" (by rfl)).1,
          ((c4_archive_bounded_newest_first tick []).2.2.1 (sampleRule "a" 0) "a" (by rfl)).2.2,
          (c4_archive_bounded_newest_first tick []).2.1 _ rfl,
          (c4_archive_bounded_newest_first tick []).2.2.2 _ "a" (by simp [getRuleVersions, sgetD, Jv.elems])⟩

end C4VersionArchive

section C7Migration

/-- A pre-migration state holding a legacy blob of two rules and one legacy
version history. -/
def legacyState : SvcState := {
  storage := [("rules", .arr [sampleRule "a" 0, sampleRule "b" 1]),
              (versionsKey "a", .arr [mkVersion tick (sampleRule "a" 0)])],
  cachedConfig := none, lastConfigFetch := 0 }

/-- A state whose legacy blob is present but not an array. -/
def badLegacyState : SvcState := {
  storage := [("rules", .obj [("not", .str "an array")])],
  cachedConfig := none, lastConfigFetch := 0 }

/-- A post-migration state (the index key exists). -/
def indexedState : SvcState := {
  storage := [(idsKey, .arr [.str "a"]), (ruleKey "a", sampleRule "a" 0)],
  cachedConfig := none, lastConfigFetch := 0 }

/-- C7: migration is a no-op success whenever the index key exists; running it
twice leaves exactly the state after the first run; and a legacy blob that is
not an array makes it fail with the state untouched. -/
theorem c7_migrate_idempotent (st : SvcState) :
    (∀ v, sget st.storage idsKey = some v → migrateFromOldFormat st = (st, true))
  ∧ (migrateFromOldFormat (migrateFromOldFormat st).1).1 = (migrateFromOldFormat st).1
  ∧ (∀ j, sget st.storage idsKey = none → sget st.storage "rules" = some j →
        (∀ xs, j ≠ .arr xs) → migrateFromOldFormat st = (st, false)) := by
  refine ⟨?_, ?_, ?_⟩
  · intro v hv
    simp [migrateFromOldFormat, hv]
  · cases hv : sget st.storage idsKey with
    | some v => simp [migrateFromOldFormat, hv]
    | none =>
      cases hr : sget st.storage "rules" with
      | none => simp [migrateFromOldFormat, hv, hr]
      | some oldJ => cases oldJ <;> simp [migrateFromOldFormat, hv, hr]
  · intro j hv hr hj
    cases j with
    | arr xs => exact absurd rfl (hj xs)
    | null => simp [migrateFromOldFormat, hv, hr]
    | bool b => simp [migrateFromOldFormat, hv, hr]
    | num n => simp [migrateFromOldFormat, hv, hr]
    | str s => simp [migrateFromOldFormat, hv, hr]
    | obj fs => simp [migrateFromOldFormat, hv, hr]

/-- Witness for C7 at concrete states. -/
theorem c7_migrate_idempotent_witness :
    migrateFromOldFormat indexedState = (indexedState, true)
  ∧ (migrateFromOldFormat (migrateFromOldFormat legacyState).1).1 =
      (migrateFromOldFormat legacyState).1
  ∧ migrateFromOldFormat badLegacyState = (badLegacyState, false) := by
  refine ⟨(c7_migrate_idempotent indexedState).1 _ rfl,
          (c7_migrate_idempotent legacyState).2.1,
          (c7_migrate_idempotent badLegacyState).2.2 _ rfl rfl ?_⟩
  intro xs
  simp

end C7Migration

section C5CacheInvalidation

/-- The configuration `getConfig` computes from storage alone: the indexed
rules, sorted by priority. -/
def freshConfig (st : Storage) : List Jv :=
  sortByPriority (fetchRules st (idsEntries st))

/-- A state holding rule `a` live together with one archived version of it. -/
def versionedState : SvcState := {
  storage := [(idsKey, .arr [.str "a"]), (ruleKey "a", sampleRule "a" 0),
              (versionsKey "a", .arr [mkVersion tick (sampleRule "a" 9)])],
  cachedConfig := none, lastConfigFetch := 0 }

/-- C5: every successful mutating operation returns a state whose cache pair
is cleared (`cachedConfig = none`, `lastConfigFetch = 0`), and an unpaginated
`getConfig` on a state without a cached snapshot returns the configuration
recomputed from storage (so it can never return a pre-mutation snapshot). -/
theorem c5_mutations_invalidate_cache (h : Host) (c : Clock) (st : SvcState) :
    (∀ r st' out, addRule h c st r = (st', Except.ok out) →
        st'.cachedConfig = none ∧ st'.lastConfigFetch = 0)
  ∧ (∀ id u st' out, updateRule h c st id u = (st', Except.ok out) →
        st'.cachedConfig = none ∧ st'.lastConfigFetch = 0)
  ∧ (∀ id st', deleteRule c st id = (st', true) →
        st'.cachedConfig = none ∧ st'.lastConfigFetch = 0)
  ∧ (∀ ids st' out, reorderRules c st ids = (st', Except.ok out) →
        st'.cachedConfig = none ∧ st'.lastConfigFetch = 0)
  ∧ (∀ id vid st' out, revertRule c st id vid = (st', Except.ok out) →
        st'.cachedConfig = none ∧ st'.lastConfigFetch = 0)
  ∧ (st.cachedConfig = none →
        getConfig c st none =
          ({ storage := st.storage, cachedConfig := some (freshConfig st.storage),
             lastConfigFetch := c.now }, .full (freshConfig st.storage))) := by
  refine ⟨?_, ?_, ?_, ?_, ?_, ?_⟩
  · intro r st' out hEq
    simp only [addRule] at hEq
    split at hEq
    · simp at hEq
    · injection hEq with h1 h2
      rw [← h1]
      exact ⟨rfl, rfl⟩
  · intro id u st' out hEq
    cases hs : sget st.storage (ruleKey id) with
    | none => simp [updateRule, hs] at hEq
    | some cur =>
      simp only [updateRule, hs] at hEq
      split at hEq
      · simp at hEq
      · injection hEq with h1 h2
        rw [← h1]
        exact ⟨rfl, rfl⟩
  · intro id st' hEq
    cases hs : sget st.storage (ruleKey id) with
    | none => simp [deleteRule, hs] at hEq
    | some r =>
      simp only [deleteRule, hs] at hEq
      injection hEq with h1 h2
      rw [← h1]
      exact ⟨rfl, rfl⟩
  · intro ids st' out hEq
    simp only [reorderRules] at hEq
    split at hEq
    · simp at hEq
    · split at hEq
      · simp at hEq
      · injection hEq with h1 h2
        rw [← h1]
        exact ⟨rfl, rfl⟩
  · intro id vid st' out hEq
    simp only [revertRule] at hEq
    split at hEq
    · simp at hEq
    · split at hEq
      · injection hEq with h1 h2
        rw [← h1]
        exact ⟨rfl, rfl⟩
      · injection hEq with h1 h2
        rw [← h1]
        exact ⟨rfl, rfl⟩
  · intro hc
    by_cases hemp : (idsEntries st.storage).isEmpty
    · have hnil : idsEntries st.storage = [] := List.isEmpty_iff.mp hemp
      simp [getConfig, hc, hemp, freshConfig, hnil, fetchRules, sortByPriority]
    · simp [getConfig, hc, hemp, freshConfig]

/-- Witness for C5: each mutating operation run at a concrete state leaves the
cache cleared, and the follow-up `getConfig` recomputes from storage. -/
theorem c5_mutations_invalidate_cache_witness :
    (addRule trivialHost tick twoRuleState (sampleRule "c" 2)).1.cachedConfig = none
  ∧ (updateRule trivialHost tick twoRuleState "a" (sampleRule "a" 5)).1.cachedConfig = none
  ∧ (deleteRule tick twoRuleState "a").1.cachedConfig = none
  ∧ (reorderRules tick twoRuleState ["b", "a"]).1.cachedConfig = none
  ∧ (revertRule tick versionedState "a" "uuid-1").1.cachedConfig = none
  ∧ getConfig tick twoRuleState none =
      ({ storage := twoRuleState.storage,
         cachedConfig := some (freshConfig twoRuleState.storage),
         lastConfigFetch := tick.now }, .full (freshConfig twoRuleState.storage)) := by
  refine ⟨?_, ?_, ?_, ?_, ?_, ?_⟩
  · exact ((c5_mutations_invalidate_cache trivialHost tick twoRuleState).1
      (sampleRule "c" 2) _
      (((sampleRule "c" 2).set "createdAt" (.str tick.nowIso)).set "updatedAt"
        (.str tick.nowIso)) (by rfl)).1
  · exact ((c5_mutations_invalidate_cache trivialHost tick twoRuleState).2.1
      "a" (sampleRule "a" 5) _
      (((sampleRule "a" 5).remove "createdAt").set "updatedAt" (.str tick.nowIso))
      (by rfl)).1
  · exact ((c5_mutations_invalidate_cache trivialHost tick twoRuleState).2.2.1
      "a" _ (by rfl)).1
  · exact ((c5_mutations_invalidate_cache trivialHost tick twoRuleState).2.2.2.1
      ["b", "a"] _
      [((sampleRule "b" 1).set "priority" (.num 0)).set "updatedAt" (.str tick.nowIso),
       ((sampleRule "a" 0).set "priority" (.num 1)).set "updatedAt" (.str tick.nowIso)]
      (by rfl)).1
  · exact ((c5_mutations_invalidate_cache trivialHost tick versionedState).2.2.2.2.1
      "a" "uuid-1" _
      ((sampleRule "a" 9).set "updatedAt" (.str tick.nowIso)) (by rfl)).1
  · exact (c5_mutations_invalidate_cache trivialHost tick twoRuleState).2.2.2.2.2 rfl

end C5CacheInvalidation

section C6GetRule

/-- The rule list of an unpaginated `getConfig` result. -/
def fullRulesOf : ConfigResult → List Jv
  | .full rs => rs
  | .paged _ _ => []

/-- An unpaginated `getConfig` always answers with the full shape. -/
theorem getConfig_none_full (c : Clock) (st : SvcState) :
    ∃ rs, (getConfig c st none).2 = ConfigResult.full rs := by
  unfold getConfig
  by_cases hemp : (idsEntries st.storage).isEmpty
  · simp [hemp]
  · cases hcc : st.cachedConfig with
    | some cc =>
      simp only [hemp, hcc, Bool.false_eq_true, if_false]
      split
      · exact ⟨cc, rfl⟩
      · exact ⟨_, rfl⟩
    | none => simp [hemp, hcc]

/-- C6 counterexample: in a state whose snapshot is far older than
`CACHE_TTL`, `getRule` still serves the rule from that snapshot although the
rule no longer exists in storage (the fresh configuration is empty) — the
claim requires a snapshot older than TTL never to be served, which would make
this lookup fall through to `getConfig()` and return not-found. -/
theorem c6_stale_cache_counterexample :
    CACHE_TTL ≤ staleClock.now - staleCacheState.lastConfigFetch
  ∧ sget staleCacheState.storage (ruleKey "r") = none
  ∧ (getRule staleClock staleCacheState "r").2 = some (sampleRule "r" 0)
  ∧ freshConfig staleCacheState.storage = [] := by
  refine ⟨by decide, rfl, rfl, rfl⟩

/-- C6 amended: `getRule` prefers the direct per-rule key; then the whole-set
cache whenever a snapshot is present, with no freshness check at all; then a
full `getConfig()`; and it returns `none` only when the fallback also misses. -/
theorem c6_getrule_resolution (c : Clock) (st : SvcState) (ruleId : String) :
    (∀ r, sget st.storage (ruleKey ruleId) = some r → getRule c st ruleId = (st, some r))
  ∧ (∀ cc r, sget st.storage (ruleKey ruleId) = none → st.cachedConfig = some cc →
        cc.find? (fun r' => (r'.getD "id").isStr ruleId) = some r →
        getRule c st ruleId = (st, some r))
  ∧ (sget st.storage (ruleKey ruleId) = none → st.cachedConfig = none →
        getRule c st ruleId =
          ((getConfig c st none).1,
            (fullRulesOf (getConfig c st none).2).find?
              (fun r' => (r'.getD "id").isStr ruleId)))
  ∧ (∀ cc, sget st.storage (ruleKey ruleId) = none → st.cachedConfig = some cc →
        cc.find? (fun r' => (r'.getD "id").isStr ruleId) = none →
        getRule c st ruleId =
          ((getConfig c st none).1,
            (fullRulesOf (getConfig c st none).2).find?
              (fun r' => (r'.getD "id").isStr ruleId))) := by
  refine ⟨?_, ?_, ?_, ?_⟩
  · intro r hs
    simp [getRule, hs]
  · intro cc r hs hcc hf
    simp [getRule, hs, hcc, hf]
  · intro hs hcc
    obtain ⟨rs, hrs⟩ := getConfig_none_full c st
    rcases hg : getConfig c st none with ⟨st2, res⟩
    rw [hg] at hrs
    simp only at hrs
    subst hrs
    simp [getRule, hs, hcc, hg, fullRulesOf]
  · intro cc hs hcc hf
    obtain ⟨rs, hrs⟩ := getConfig_none_full c st
    rcases hg : getConfig c st none with ⟨st2, res⟩
    rw [hg] at hrs
    simp only at hrs
    subst hrs
    simp [getRule, hs, hcc, hf, hg, fullRulesOf]

/-- Witness for the amended C6 theorem at concrete states: a direct-storage
hit, a cache hit, and the fallback path. -/
theorem c6_getrule_resolution_witness :
    getRule tick twoRuleState "a" = (twoRuleState, some (sampleRule "a" 0))
  ∧ getRule staleClock staleCacheState "r" = (staleCacheState, some (sampleRule "r" 0))
  ∧ getRule tick { storage := [], cachedConfig := none, lastConfigFetch := 0 } "x" =
      ((getConfig tick { storage := [], cachedConfig := none, lastConfigFetch := 0 } none).1,
        (fullRulesOf
            (getConfig tick { storage := [], cachedConfig := none, lastConfigFetch := 0 } none).2).find?
          (fun r' => (r'.getD "id").isStr "x")) := by
  refine ⟨(c6_getrule_resolution tick twoRuleState "a").1 _ rfl,
          (c6_getrule_resolution staleClock staleCacheState "r").2.1 _ _ rfl rfl rfl,
          (c6_getrule_resolution tick _ "x").2.2.1 rfl rfl⟩

end C6GetRule

section C1Reorder

/-- C1 counterexample: `["a", "a"]` over the live set `{a, b}` omits `b` and
duplicates `a`, yet `reorderRules` succeeds — the membership loop accepts both
occurrences of `a` and the length check matches — and it writes storage (rule
`a`'s priority moves from 0 to 1), refuting both the mandated failure and the
zero-writes clause for duplicate inputs. -/
theorem c1_duplicates_counterexample :
    (reorderRules tick twoRuleState ["a", "a"]).2.isOk = true
  ∧ priorityOf (sgetD (reorderRules tick twoRuleState ["a", "a"]).1.storage
      (ruleKey "a") .null) = 1
  ∧ priorityOf (sgetD twoRuleState.storage (ruleKey "a") .null) = 0 := by
  refine ⟨rfl, rfl, rfl⟩

/-- C1 amended: an ordered-id list containing an id missing from the index
fails naming the first such id and leaves the state untouched; a list whose
members all exist but whose length differs from the index fails with the
generic all-rules-required message, also without writes. (A list of duplicated
live ids whose length matches the index is not rejected.) -/
theorem c1_reorder_validation (c : Clock) (st : SvcState) (ruleIds : List String) :
    (∀ missing,
        ruleIds.find? (fun i => !((idsEntries st.storage).any (fun e => e.isStr i)))
          = some missing →
        reorderRules c st ruleIds =
          (st, .error ("Rule with ID " ++ missing ++ " not found")))
  ∧ (ruleIds.find? (fun i => !((idsEntries st.storage).any (fun e => e.isStr i))) = none →
      ruleIds.length ≠ (idsEntries st.storage).length →
      reorderRules c st ruleIds =
        (st, .error "All rules must be included in the reordering")) := by
  constructor
  · intro missing hf
    simp [reorderRules, hf]
  · intro hf hlen
    simp [reorderRules, hf, hlen]

/-- Witness for the amended C1 theorem: an unknown id and an omitted id at a
concrete two-rule state. -/
theorem c1_reorder_validation_witness :
    reorderRules tick twoRuleState ["a", "zzz"] =
      (twoRuleState, .error ("Rule with ID " ++ "zzz" ++ " not found"))
  ∧ reorderRules tick twoRuleState ["a"] =
      (twoRuleState, .error "All rules must be included in the reordering") := by
  refine ⟨(c1_reorder_validation tick twoRuleState ["a", "zzz"]).1 "zzz" (by rfl),
          (c1_reorder_validation tick twoRuleState ["a"]).2 (by rfl) (by decide)⟩

end C1Reorder

section C2ArchiveBeforeMutation

/-- A fold of rule-key writes never touches a version-history key. -/
theorem foldl_sput_rulekeys_versions (writes : List (String × Jv)) (st : Storage)
    (rid : String) :
    getRuleVersions (writes.foldl (fun acc p => sput acc (ruleKey p.1) p.2) st) rid =
      getRuleVersions st rid := by
  induction writes generalizing st with
  | nil => rfl
  | cons w rest ih =>
    rw [List.foldl_cons, ih]
    unfold getRuleVersions sgetD
    rw [sget_sput_ne _ _ _ _ (fun hc => ruleKey_ne_versionsKey w.1 rid hc.symm)]

/-- C2 counterexample: a successful `reorderRules` mutates live rule `a`
(priority 0 becomes 1) yet appends nothing to its version history — the prior
state is not archived, refuting the claim for `reorderRules`. -/
theorem c2_reorder_no_archive_counterexample :
    (reorderRules tick twoRuleState ["b", "a"]).2.isOk = true
  ∧ getRuleVersions (reorderRules tick twoRuleState ["b", "a"]).1.storage "a" = []
  ∧ getRuleVersions twoRuleState.storage "a" = []
  ∧ priorityOf (sgetD (reorderRules tick twoRuleState ["b", "a"]).1.storage
      (ruleKey "a") .null) = 1
  ∧ priorityOf (sgetD twoRuleState.storage (ruleKey "a") .null) = 0 := by
  refine ⟨rfl, rfl, rfl, rfl, rfl⟩

/-- C2 amended: `updateRule` and `revertRule` (on a still-existing rule)
archive the pre-mutation state — afterwards the archived rule's history is the
truncated prepend of a snapshot of the old value — while `reorderRules` leaves
every version history exactly as it was. -/
theorem c2_prior_state_archived (h : Host) (c : Clock) (st : SvcState) :
    (∀ ruleId updated cur rid0 st' out,
        sget st.storage (ruleKey ruleId) = some cur →
        ruleIdOf cur = some rid0 →
        updateRule h c st ruleId updated = (st', Except.ok out) →
        getRuleVersions st'.storage rid0 =
          (mkVersion c cur :: getRuleVersions st.storage rid0).take VERSION_LIMIT)
  ∧ (∀ ruleId versionId cur rid0 st' out,
        sget st.storage (ruleKey ruleId) = some cur →
        ruleIdOf cur = some rid0 →
        revertRule c st ruleId versionId = (st', Except.ok out) →
        getRuleVersions st'.storage rid0 =
          (mkVersion c cur :: getRuleVersions st.storage rid0).take VERSION_LIMIT)
  ∧ (∀ ruleIds st' res, reorderRules c st ruleIds = (st', res) →
        ∀ rid, getRuleVersions st'.storage rid = getRuleVersions st.storage rid) := by
  refine ⟨?_, ?_, ?_⟩
  · intro ruleId updated cur rid0 st' out hs hid hEq
    simp only [updateRule, hs] at hEq
    split at hEq
    · simp at hEq
    · injection hEq with h1 h2
      rw [← h1]
      show getRuleVersions (sput _ (ruleKey ruleId) _) rid0 = _
      unfold getRuleVersions sgetD
      rw [sget_sput_ne _ _ _ _ (fun hc => ruleKey_ne_versionsKey ruleId rid0 hc.symm)]
      exact archive_versions_self c st.storage cur rid0 hid
  · intro ruleId versionId cur rid0 st' out hs hid hEq
    simp only [revertRule] at hEq
    split at hEq
    · simp at hEq
    · rw [hs] at hEq
      simp only at hEq
      injection hEq with h1 h2
      rw [← h1]
      show getRuleVersions (sput _ (ruleKey ruleId) _) rid0 = _
      unfold getRuleVersions sgetD
      rw [sget_sput_ne _ _ _ _ (fun hc => ruleKey_ne_versionsKey ruleId rid0 hc.symm)]
      exact archive_versions_self c st.storage cur rid0 hid
  · intro ruleIds st' res hEq rid
    simp only [reorderRules] at hEq
    split at hEq
    · injection hEq with h1 h2
      rw [← h1]
    · split at hEq
      · injection hEq with h1 h2
        rw [← h1]
      · injection hEq with h1 h2
        rw [← h1]
        exact foldl_sput_rulekeys_versions _ st.storage rid

/-- Witness for the amended C2 theorem: a concrete update archives the old
rule, a concrete revert archives the overwritten rule, and a concrete reorder
leaves histories untouched. -/
theorem c2_prior_state_archived_witness :
    getRuleVersions (updateRule trivialHost tick twoRuleState "a"
        (sampleRule "a" 5)).1.storage "a" =
      (mkVersion tick (sampleRule "a" 0) :: getRuleVersions twoRuleState.storage "a").take
        VERSION_LIMIT
  ∧ getRuleVersions (revertRule tick versionedState "a" "uuid-1").1.storage "a" =
      (mkVersion tick (sampleRule "a" 0) ::
        getRuleVersions versionedState.storage "a").take VERSION_LIMIT
  ∧ getRuleVersions (reorderRules tick twoRuleState ["b", "a"]).1.storage "b" =
      getRuleVersions twoRuleState.storage "b" := by
  refine ⟨?_, ?_, ?_⟩
  · exact (c2_prior_state_archived trivialHost tick twoRuleState).1 "a"
      (sampleRule "a" 5) (sampleRule "a" 0) "a" _
      (((sampleRule "a" 5).remove "createdAt").set "updatedAt" (.str tick.nowIso))
      rfl rfl (by rfl)
  · exact (c2_prior_state_archived trivialHost tick versionedState).2.1 "a" "uuid-1"
      (sampleRule "a" 0) "a" _
      ((sampleRule "a" 9).set "updatedAt" (.str tick.nowIso))
      rfl rfl (by rfl)
  · exact (c2_prior_state_archived trivialHost tick twoRuleState).2.2 ["b", "a"] _ _
      (by rfl) "b"

end C2ArchiveBeforeMutation

section C9ValidationRobustness

/-- Membership in an indexed concatenation comes from membership in the piece
at the element's index. -/
theorem mem_mapIdx {α β : Type} (f : Nat → α → List β) (xs : List α) (n i : Nat)
    (x : α) (b : β) (hx : xs[i]? = some x) (hb : b ∈ f (n + i) x) :
    b ∈ mapIdx f n xs := by
  induction xs generalizing n i with
  | nil => simp at hx
  | cons y ys ih =>
    cases i with
    | zero =>
      simp at hx
      subst hx
      exact List.mem_append_left _ (by simpa using hb)
    | succ j =>
      simp at hx
      refine List.mem_append_right _ (ih (n + 1) j hx ?_)
      have : n + 1 + j = n + (j + 1) := by omega
      rw [this]
      exact hb

/-- A failing regex compilation surfaces as an error entry of
`validateCondition`. -/
theorem regex_error_in_condErrors (h : Host) (path : String) (i : Nat)
    (cond v : Jv) (msg : String)
    (h1 : cond.truthy = true) (h2 : cond.jsTypeof = "object")
    (hop : cond.get "operator" = some (.str "matches"))
    (hv : cond.get "value" = some v) (hvt : v.truthy = true)
    (hre : h.regexErr v = some msg) :
    (s!"{path}[{i}].value", "Invalid regex pattern: " ++ msg) ∈ condErrors h path i cond := by
  have hgD : cond.getD "operator" = .str "matches" := by simp [Jv.getD, hop]
  have hvD : cond.getD "value" = v := by simp [Jv.getD, hv]
  have hfin :
      (if (cond.getD "operator").isStr "matches" && (cond.getD "value").truthy then
        match h.regexErr (cond.getD "value") with
        | some msg => [(s!"{path}[{i}].value", "Invalid regex pattern: " ++ msg)]
        | none => []
      else []) = [(s!"{path}[{i}].value", "Invalid regex pattern: " ++ msg)] := by
    simp [hgD, hvD, Jv.isStr, hvt, hre]
  simp only [condErrors, h1, h2, Bool.not_true, Bool.false_eq_true, if_false, ne_eq]
  simp only [hfin]
  simp [List.mem_append]

/-- The regex error entry of a condition inside a match block survives into
`validateMatch`'s error list. -/
theorem regex_error_in_matchErrors (h : Host) (m : Jv) (path pc : String)
    (cs : List Jv) (i : Nat) (cond v : Jv) (msg : String)
    (hpc : pc = path ++ ".conditions")
    (hm1 : m.truthy = true) (hm2 : m.jsTypeof = "object")
    (hcs : m.get "conditions" = some (.arr cs))
    (hci : cs[i]? = some cond)
    (h1 : cond.truthy = true) (h2 : cond.jsTypeof = "object")
    (hop : cond.get "operator" = some (.str "matches"))
    (hv : cond.get "value" = some v) (hvt : v.truthy = true)
    (hre : h.regexErr v = some msg) :
    (s!"{pc}[{i}].value", "Invalid regex pattern: " ++ msg) ∈ matchErrors h m path := by
  subst hpc
  simp only [matchErrors, hm1, hm2, Bool.not_true, Bool.false_eq_true, if_false, hcs]
  refine List.mem_append_left _ ?_
  refine mem_mapIdx _ cs 0 i cond _ hci ?_
  have := regex_error_in_condErrors h (path ++ ".conditions") (0 + i) cond v msg
    h1 h2 hop hv hvt hre
  simpa using this

/-- The error-path root for conditions of the initial match block. -/
def initialMatchCondPath : String := "initialMatch.conditions"

/-- C9: `validateRule` is a total function into the structured
`{valid, errors, warnings}` shape whose `valid` flag is exactly emptiness of
the error list (it cannot throw), and a condition of the `initialMatch` block
whose `matches` pattern fails to compile contributes an error entry carrying
the compiler's message at that condition's field path. -/
theorem c9_validate_never_throws (h : Host) (rule : Jv) (ids : List String)
    (ex : Option String) :
    ((validateRule h rule ids ex).valid = true ↔ (validateRule h rule ids ex).errors = [])
  ∧ (validateRule h rule ids ex).errors = validateRuleErrors h rule ids ex
  ∧ (validateRule h rule ids ex).warnings = validateRuleWarnings rule
  ∧ (∀ (im : Jv) (cs : List Jv) (i : Nat) (cond v : Jv) (msg : String),
      rule.truthy = true → rule.jsTypeof = "object" →
      rule.get "initialMatch" = some im →
      im.truthy = true → im.jsTypeof = "object" →
      im.get "conditions" = some (.arr cs) →
      cs[i]? = some cond →
      cond.truthy = true → cond.jsTypeof = "object" →
      cond.get "operator" = some (.str "matches") →
      cond.get "value" = some v → v.truthy = true →
      h.regexErr v = some msg →
      (s!"{initialMatchCondPath}[{i}].value", "Invalid regex pattern: " ++ msg)
        ∈ (validateRule h rule ids ex).errors) := by
  refine ⟨by simp [validateRule, List.isEmpty_iff], rfl, rfl, ?_⟩
  intro im cs i cond v msg hr1 hr2 him hm1 hm2 hcs hci h1 h2 hop hv hvt hre
  have himD : rule.getD "initialMatch" = im := by simp [Jv.getD, him]
  have hM := regex_error_in_matchErrors h im "initialMatch" initialMatchCondPath
    cs i cond v msg rfl hm1 hm2 hcs hci h1 h2 hop hv hvt hre
  show _ ∈ validateRuleErrors h rule ids ex
  simp only [validateRuleErrors, hr1, hr2, Bool.not_true, Bool.false_eq_true, if_false,
    himD]
  rw [if_neg (fun hc => hc rfl)]
  simp only [List.mem_append]
  tauto

/-- Witness for C9: the spec's own `(unclosed` pattern on a concrete rule and
host produces the structured invalid-pattern error. -/
theorem c9_validate_never_throws_witness :
    ((validateRule unclosedHost unclosedRegexRule [] none).valid = true ↔
      (validateRule unclosedHost unclosedRegexRule [] none).errors = [])
  ∧ ("initialMatch.conditions[0].value",
      "Invalid regex pattern: Invalid regular expression: /(unclosed/: Unterminated group")
      ∈ (validateRule unclosedHost unclosedRegexRule [] none).errors := by
  refine ⟨(c9_validate_never_throws unclosedHost unclosedRegexRule [] none).1, ?_⟩
  have hmem := (c9_validate_never_throws unclosedHost unclosedRegexRule [] none).2.2.2
    (unclosedRegexRule.getD "initialMatch")
    [.obj [("field", .str "url.pathname"), ("operator", .str "matches"),
           ("value", .str "(unclosed")]]
    0
    (.obj [("field", .str "url.pathname"), ("operator", .str "matches"),
           ("value", .str "(unclosed")])
    (.str "(unclosed")
    "Invalid regular expression: /(unclosed/: Unterminated group"
    rfl rfl rfl rfl rfl rfl rfl rfl rfl rfl rfl rfl rfl
  have hstr : (s!"{initialMatchCondPath}[{(0 : Nat)}].value" : String) =
      "initialMatch.conditions[0].value" := rfl
  rw [hstr] at hmem
  exact hmem

end C9ValidationRobustness

section C10IndexCoherence

/-- The index/key coherence invariant: the index key holds an array of id
strings, and an id is listed exactly when its rule key holds a value carrying
that id. (Carrying the id in the body is part of the invariant because
`reorderRules` keys its writes by the fetched rule's own `id` field.) -/
def CoherentIdx (st : Storage) : Prop :=
  ∃ l : List String,
    sget st idsKey = some (.arr (l.map Jv.str))
    ∧ ∀ id, id ∈ l ↔ ∃ r, sget st (ruleKey id) = some r ∧ ruleIdOf r = some id

theorem ruleKey_ne_idsKey_of_ne {id : String} (h : id ≠ "ids") :
    ruleKey id ≠ idsKey :=
  fun hc => h ((ruleKey_eq_idsKey_iff id).mp hc)

/-- Under coherence the reserved id `"ids"` is never listed: its rule key is
the index key itself, which holds an array, and an array has no id. -/
theorem coherent_ids_not_mem {st : Storage} {l : List String}
    (hl : sget st idsKey = some (.arr (l.map Jv.str)))
    (hiff : ∀ id, id ∈ l ↔ ∃ r, sget st (ruleKey id) = some r ∧ ruleIdOf r = some id) :
    "ids" ∉ l := by
  intro hmem
  obtain ⟨r, hr, hrid⟩ := (hiff "ids").mp hmem
  rw [show ruleKey "ids" = idsKey from rfl, hl] at hr
  cases hr
  simp [ruleIdOf, Jv.get] at hrid

theorem idsEntries_of {st : Storage} {es : List Jv}
    (hl : sget st idsKey = some (.arr es)) : idsEntries st = es := by
  simp [idsEntries, sgetD, hl, Jv.elems]

theorem find?_removeField_ne (fs : List (String × Jv)) (k k' : String) (h : k' ≠ k) :
    (removeField fs k).find? (fun p => p.1 == k') = fs.find? (fun p => p.1 == k') := by
  induction fs with
  | nil => rfl
  | cons p rest ih =>
    by_cases hp : p.1 = k
    · have hpk' : (p.1 == k') = false := strBeqFalse (fun hc => h (hc ▸ hp))
      simp [removeField, hp, List.find?, hpk', ih, strBeqFalse (Ne.symm h)]
    · by_cases hq : p.1 = k'
      · obtain ⟨pk, pv⟩ := p
        simp only at hp hq
        subst hq
        simp [removeField, hp, List.find?, h]
      · simp [removeField, hp, List.find?, strBeqFalse hq, ih]

theorem get_remove_ne (base : Jv) (k k' : String) (h : k' ≠ k) :
    (base.remove k).get k' = base.get k' := by
  cases base with
  | obj fs => simp [Jv.remove, Jv.get, find?_removeField_ne fs k k' h]
  | null => simp [Jv.remove, Jv.get, List.find?]
  | bool b => simp [Jv.remove, Jv.get, List.find?]
  | num n => simp [Jv.remove, Jv.get, List.find?]
  | str s => simp [Jv.remove, Jv.get, List.find?]
  | arr xs => simp [Jv.remove, Jv.get, List.find?]

theorem ruleIdOf_remove_ne (base : Jv) (k : String) (h : k ≠ "id") :
    ruleIdOf (base.remove k) = ruleIdOf base := by
  simp [ruleIdOf, get_remove_ne base k "id" (Ne.symm h)]

theorem any_isStr_map_iff (l : List String) (x : String) :
    ((l.map Jv.str).any (fun e => e.isStr x) = true) ↔ x ∈ l := by
  induction l with
  | nil => simp
  | cons s rest ih =>
    simp only [List.map_cons, List.any_cons, Bool.or_eq_true, ih, List.mem_cons]
    constructor
    · rintro (hs | hm)
      · left
        have : s = x := by simpa [Jv.isStr] using hs
        exact this.symm
      · exact Or.inr hm
    · rintro (hs | hm)
      · left
        simp [Jv.isStr, hs]
      · exact Or.inr hm

theorem filter_isStr_map (l : List String) (x : String) :
    (l.map Jv.str).filter (fun e => !(e.isStr x)) =
      (l.filter (fun s => !(s == x))).map Jv.str := by
  induction l with
  | nil => rfl
  | cons s rest ih =>
    rw [List.map_cons, List.filter_cons, List.filter_cons]
    by_cases hs : s = x
    · have h1 : (!(Jv.str s).isStr x) = false := by simp [Jv.isStr, hs]
      have h2 : (!(s == x)) = false := by simp [hs]
      rw [h1, h2]
      simpa using ih
    · have h1 : (!(Jv.str s).isStr x) = true := by simp [Jv.isStr, strBeqFalse hs]
      have h2 : (!(s == x)) = true := by simp [strBeqFalse hs]
      rw [h1, h2]
      simp [ih]

/-- Archiving touches no rule key and not the index, so it preserves
coherence with the same index list. -/
theorem coherent_archive {st : Storage} {l : List String} (c : Clock) (r? : Option Jv)
    (hl : sget st idsKey = some (.arr (l.map Jv.str)))
    (hiff : ∀ id, id ∈ l ↔ ∃ r, sget st (ruleKey id) = some r ∧ ruleIdOf r = some id) :
    sget (archiveRuleVersion c st r?) idsKey = some (.arr (l.map Jv.str))
    ∧ ∀ id, id ∈ l ↔
        ∃ r, sget (archiveRuleVersion c st r?) (ruleKey id) = some r ∧ ruleIdOf r = some id := by
  constructor
  · rw [archive_sget_other c st r? idsKey (fun s => Ne.symm (versionsKey_ne_idsKey s))]
    exact hl
  · intro id
    rw [archive_sget_other c st r? (ruleKey id) (fun s => ruleKey_ne_versionsKey id s)]
    exact hiff id

/-- Overwriting the rule key of a listed id with a value carrying that id
preserves coherence with the same index list. -/
theorem coherent_single_write {st : Storage} {l : List String} (i : String) (v : Jv)
    (hl : sget st idsKey = some (.arr (l.map Jv.str)))
    (hiff : ∀ id, id ∈ l ↔ ∃ r, sget st (ruleKey id) = some r ∧ ruleIdOf r = some id)
    (hi : i ∈ l) (hv : ruleIdOf v = some i) :
    sget (sput st (ruleKey i) v) idsKey = some (.arr (l.map Jv.str))
    ∧ ∀ id, id ∈ l ↔
        ∃ r, sget (sput st (ruleKey i) v) (ruleKey id) = some r ∧ ruleIdOf r = some id := by
  have hids : "ids" ∉ l := coherent_ids_not_mem hl hiff
  have hine : i ≠ "ids" := fun hc => hids (hc ▸ hi)
  constructor
  · rw [sget_sput_ne _ _ _ _ (Ne.symm (ruleKey_ne_idsKey_of_ne hine))]
    exact hl
  · intro id
    by_cases hid : id = i
    · subst hid
      exact ⟨fun _ => ⟨v, by rw [sget_sput_self], hv⟩, fun _ => hi⟩
    · rw [sget_sput_ne _ _ _ _ (fun hc => hid (ruleKey_inj hc))]
      exact hiff id

/-- A sequence of rule-key writes, each keyed by a listed id carried in its
value, preserves coherence with the same index list. -/
theorem coherent_foldl_writes (writes : List (String × Jv)) (st : Storage)
    (l : List String)
    (hl : sget st idsKey = some (.arr (l.map Jv.str)))
    (hiff : ∀ id, id ∈ l ↔ ∃ r, sget st (ruleKey id) = some r ∧ ruleIdOf r = some id)
    (hw : ∀ p ∈ writes, p.1 ∈ l ∧ ruleIdOf p.2 = some p.1) :
    sget (writes.foldl (fun acc p => sput acc (ruleKey p.1) p.2) st) idsKey =
        some (.arr (l.map Jv.str))
    ∧ ∀ id, id ∈ l ↔
        ∃ r, sget (writes.foldl (fun acc p => sput acc (ruleKey p.1) p.2) st)
            (ruleKey id) = some r ∧ ruleIdOf r = some id := by
  induction writes generalizing st with
  | nil => exact ⟨hl, hiff⟩
  | cons w rest ih =>
    obtain ⟨hw1, hw2⟩ := hw w (List.mem_cons_self w rest)
    obtain ⟨hl', hiff'⟩ := coherent_single_write w.1 w.2 hl hiff hw1 hw2
    rw [List.foldl_cons]
    exact ih _ hl' hiff' (fun p hp => hw p (List.mem_cons_of_mem w hp))

/-- Appending a fresh id to the index and writing its rule key (the shape of
`addRule` and of `revertRule`'s reinsert path) yields coherence for the
extended list. -/
theorem coherent_insert_write (st : Storage) (l : List String) (rid : String) (v : Jv)
    (hl : sget st idsKey = some (.arr (l.map Jv.str)))
    (hiff : ∀ id, id ∈ l ↔ ∃ r, sget st (ruleKey id) = some r ∧ ruleIdOf r = some id)
    (hrid : ruleIdOf v = some rid) (hne : rid ≠ "ids") :
    sget (sput (sput st idsKey (.arr (l.map Jv.str ++ [.str rid]))) (ruleKey rid) v)
        idsKey = some (.arr ((l ++ [rid]).map Jv.str))
    ∧ ∀ id, id ∈ l ++ [rid] ↔
        ∃ r, sget (sput (sput st idsKey (.arr (l.map Jv.str ++ [.str rid])))
              (ruleKey rid) v) (ruleKey id) = some r ∧ ruleIdOf r = some id := by
  constructor
  · rw [sget_sput_ne _ _ _ _ (Ne.symm (ruleKey_ne_idsKey_of_ne hne)), sget_sput_self]
    simp
  · intro id
    by_cases hid : id = rid
    · subst hid
      refine ⟨fun _ => ⟨v, by rw [sget_sput_self], hrid⟩,
              fun _ => List.mem_append_right _ (by simp)⟩
    · rw [sget_sput_ne _ _ _ _ (fun hc => hid (ruleKey_inj hc))]
      by_cases hids : id = "ids"
      · subst hids
        rw [show ruleKey "ids" = idsKey from rfl, sget_sput_self]
        constructor
        · intro hmem
          rcases List.mem_append.mp hmem with hmem | hmem
          · exact absurd hmem (coherent_ids_not_mem hl hiff)
          · simp at hmem
            exact absurd hmem.symm hne
        · rintro ⟨r, hr, hrid'⟩
          cases hr
          simp [ruleIdOf, Jv.get] at hrid'
      · rw [sget_sput_ne _ _ _ _ (ruleKey_ne_idsKey_of_ne hids)]
        rw [List.mem_append]
        constructor
        · rintro (hmem | hmem)
          · exact (hiff id).mp hmem
          · simp at hmem
            exact absurd hmem hid
        · intro hex
          exact Or.inl ((hiff id).mpr hex)

/-- The two-rule fixture satisfies the coherence invariant. -/
theorem coherent_twoRuleState : CoherentIdx twoRuleState.storage := by
  refine ⟨["a", "b"], rfl, ?_⟩
  intro id
  constructor
  · intro hmem
    simp only [List.mem_cons, List.not_mem_nil, or_false] at hmem
    rcases hmem with rfl | rfl
    · exact ⟨sampleRule "a" 0, rfl, rfl⟩
    · exact ⟨sampleRule "b" 1, rfl, rfl⟩
  · rintro ⟨r, hr, hrid⟩
    simp only [twoRuleState, sget] at hr
    split at hr
    · next hkey =>
      cases hr
      simp [ruleIdOf, Jv.get] at hrid
    · split at hr
      · next hkey =>
        have : id = "a" := (ruleKey_inj hkey).symm
        simp [this]
      · split at hr
        · next hkey =>
          have : id = "b" := (ruleKey_inj hkey).symm
          simp [this]
        · cases hr

/-- The valid rule whose id is the reserved word `ids`. -/
def idsIdRule : Jv := sampleRule "ids" 5

/-- C10 counterexample: from a coherent two-rule state, `addRule` accepts a
valid rule whose id is `"ids"` — its rule key `rule_ids` is the index key
itself, so the final rule write clobbers the index — leaving a state where the
invariant fails (the index no longer lists the still-present rule `a`). -/
theorem c10_ids_collision_counterexample :
    CoherentIdx twoRuleState.storage
  ∧ (addRule trivialHost tick twoRuleState idsIdRule).2.isOk = true
  ∧ strIds (addRule trivialHost tick twoRuleState idsIdRule).1.storage = []
  ∧ (sget (addRule trivialHost tick twoRuleState idsIdRule).1.storage
      (ruleKey "a")).isSome = true
  ∧ ¬ CoherentIdx (addRule trivialHost tick twoRuleState idsIdRule).1.storage := by
  refine ⟨coherent_twoRuleState, rfl, rfl, rfl, ?_⟩
  rintro ⟨l, hl, -⟩
  have hobs : (sgetD (addRule trivialHost tick twoRuleState idsIdRule).1.storage
      idsKey .null).get "id" = some (.str "ids") := rfl
  simp only [sgetD] at hobs
  rw [hl] at hobs
  simp [Jv.get] at hobs

/-- C10 amended: each successful mutating operation preserves the coherence
invariant between the id index and the per-rule keys, provided no id involved
is the reserved string `"ids"` (whose rule key collides with the index key),
the update's payload keeps the updated rule's id, and archived snapshots carry
the id of the rule they belong to — side conditions every normally-created
state satisfies. -/
theorem c10_index_key_coherence (h : Host) (c : Clock) (st : SvcState)
    (hco : CoherentIdx st.storage) :
    (∀ r rid st' out, addRule h c st r = (st', Except.ok out) →
        ruleIdOf r = some rid → rid ≠ "ids" → CoherentIdx st'.storage)
  ∧ (∀ ruleId u cur st' out, updateRule h c st ruleId u = (st', Except.ok out) →
        sget st.storage (ruleKey ruleId) = some cur → ruleIdOf cur = some ruleId →
        u.get "id" = some (.str ruleId) → CoherentIdx st'.storage)
  ∧ (∀ ruleId st', deleteRule c st ruleId = (st', true) → ruleId ≠ "ids" →
        CoherentIdx st'.storage)
  ∧ (∀ ruleId versionId st' out, revertRule c st ruleId versionId = (st', Except.ok out) →
        ruleId ≠ "ids" →
        (∀ version, (getRuleVersions st.storage ruleId).find?
            (fun v => (v.getD "versionId").isStr versionId) = some version →
            ruleIdOf (version.getD "rule") = some ruleId) →
        (∀ cur, sget st.storage (ruleKey ruleId) = some cur →
            ruleIdOf cur = some ruleId) →
        CoherentIdx st'.storage)
  ∧ (∀ ruleIds st' out, reorderRules c st ruleIds = (st', Except.ok out) →
        CoherentIdx st'.storage) := by
  obtain ⟨l, hl, hiff⟩ := hco
  have hentries : idsEntries st.storage = l.map Jv.str := idsEntries_of hl
  refine ⟨?_, ?_, ?_, ?_, ?_⟩
  -- addRule
  · intro r rid st' out hEq hrid hne
    have hr2 : ruleIdOf ((if (r.getD "createdAt").truthy then r
        else r.set "createdAt" (.str c.nowIso)).set "updatedAt" (.str c.nowIso))
        = some rid := by
      rw [ruleIdOf_set_ne _ "updatedAt" _ (by decide)]
      by_cases hcr : (r.getD "createdAt").truthy
      · simp [hcr, hrid]
      · simp [hcr, ruleIdOf_set_ne r "createdAt" _ (by decide), hrid]
    obtain ⟨-, -, hD, -, hK⟩ := ruleIdOf_elim hr2
    simp only [addRule] at hEq
    split at hEq
    · simp at hEq
    · injection hEq with h1 h2
      subst h1
      show CoherentIdx _
      rw [hentries, hD]
      obtain ⟨hA, hB⟩ := coherent_insert_write st.storage l rid _ hl hiff hr2 hne
      obtain ⟨hA2, hB2⟩ := coherent_archive c (some _) hA hB
      exact ⟨l ++ [rid], hA2, hB2⟩
  -- updateRule
  · intro ruleId u cur st' out hEq hs hcurid hu
    have hmem : ruleId ∈ l := (hiff ruleId).mpr ⟨cur, hs, hcurid⟩
    have hne' : ruleId ≠ "" := (ruleIdOf_elim hcurid).2.1
    have huid : ruleIdOf u = some ruleId := by simp [ruleIdOf, hu, hne']
    have hfin : ruleIdOf ((match cur.get "createdAt" with
        | some v => u.set "createdAt" v
        | none => u.remove "createdAt").set "updatedAt" (.str c.nowIso))
        = some ruleId := by
      rw [ruleIdOf_set_ne _ "updatedAt" _ (by decide)]
      cases hc' : cur.get "createdAt" with
      | some v => rw [ruleIdOf_set_ne u "createdAt" v (by decide)]; exact huid
      | none => rw [ruleIdOf_remove_ne u "createdAt" (by decide)]; exact huid
    simp only [updateRule, hs] at hEq
    split at hEq
    · simp at hEq
    · injection hEq with h1 h2
      subst h1
      obtain ⟨hl1, hiff1⟩ := coherent_archive c (some cur) hl hiff
      obtain ⟨hl2, hiff2⟩ := coherent_single_write ruleId _ hl1 hiff1 hmem hfin
      exact ⟨l, hl2, hiff2⟩
  -- deleteRule
  · intro ruleId st' hEq hne
    cases hs : sget st.storage (ruleKey ruleId) with
    | none => simp [deleteRule, hs] at hEq
    | some rule0 =>
      simp only [deleteRule, hs] at hEq
      injection hEq with h1 h2
      subst h1
      obtain ⟨hl1, hiff1⟩ := coherent_archive c (some rule0) hl hiff
      have hent1 : idsEntries (archiveRuleVersion c st.storage (some rule0)) =
          l.map Jv.str := idsEntries_of hl1
      refine ⟨l.filter (fun s => !(s == ruleId)), ?_, ?_⟩
      · rw [sget_sdel_ne _ _ _ (Ne.symm (ruleKey_ne_idsKey_of_ne hne)), sget_sput_self,
          hent1, filter_isStr_map]
      · intro id
        by_cases hidr : id = ruleId
        · subst hidr
          constructor
          · intro hmem
            have := (List.mem_filter.mp hmem).2
            simp at this
          · rintro ⟨r, hr, -⟩
            rw [sget_sdel_self] at hr
            cases hr
        · rw [sget_sdel_ne _ _ _ (fun hc => hidr (ruleKey_inj hc))]
          by_cases hids : id = "ids"
          · subst hids
            rw [show ruleKey "ids" = idsKey from rfl, sget_sput_self]
            constructor
            · intro hmem
              exact absurd (List.mem_of_mem_filter hmem)
                (coherent_ids_not_mem hl1 hiff1)
            · rintro ⟨r, hr, hrid'⟩
              cases hr
              simp [ruleIdOf, Jv.get] at hrid'
          · rw [sget_sput_ne _ _ _ _ (ruleKey_ne_idsKey_of_ne hids)]
            constructor
            · intro hmem
              exact (hiff1 id).mp (List.mem_of_mem_filter hmem)
            · intro hex
              refine List.mem_filter.mpr ⟨(hiff1 id).mpr hex, by simp [hidr]⟩
  -- revertRule
  · intro ruleId versionId st' out hEq hne hver hcur
    simp only [revertRule] at hEq
    split at hEq
    · simp at hEq
    · next version hfind =>
      have hvid : ruleIdOf (version.getD "rule") = some ruleId := hver version hfind
      cases hs : sget st.storage (ruleKey ruleId) with
      | none =>
        rw [hs] at hEq
        simp only at hEq
        have hnotmem : ruleId ∉ l := by
          intro hmem
          obtain ⟨r0, hr0, -⟩ := (hiff ruleId).mp hmem
          rw [hs] at hr0
          cases hr0
        have hany : (idsEntries st.storage).any (fun e => e.isStr ruleId) = false := by
          rw [hentries]
          rw [Bool.eq_false_iff]
          intro hc
          exact hnotmem ((any_isStr_map_iff l ruleId).mp hc)
        rw [hany] at hEq
        simp only [Bool.false_eq_true, if_false] at hEq
        injection hEq with h1 h2
        subst h1
        show CoherentIdx _
        rw [hentries]
        have hres : ruleIdOf ((version.getD "rule").set "updatedAt" (.str c.nowIso))
            = some ruleId := by
          rw [ruleIdOf_set_ne _ "updatedAt" _ (by decide)]
          exact hvid
        obtain ⟨hA, hB⟩ := coherent_insert_write st.storage l ruleId _ hl hiff hres hne
        exact ⟨l ++ [ruleId], hA, hB⟩
      | some cur =>
        rw [hs] at hEq
        simp only at hEq
        injection hEq with h1 h2
        subst h1
        have hcurid := hcur cur hs
        have hmem : ruleId ∈ l := (hiff ruleId).mpr ⟨cur, hs, hcurid⟩
        have hres : ruleIdOf ((version.getD "rule").set "updatedAt" (.str c.nowIso))
            = some ruleId := by
          rw [ruleIdOf_set_ne _ "updatedAt" _ (by decide)]
          exact hvid
        obtain ⟨hl1, hiff1⟩ := coherent_archive c (some cur) hl hiff
        obtain ⟨hl2, hiff2⟩ := coherent_single_write ruleId _ hl1 hiff1 hmem hres
        exact ⟨l, hl2, hiff2⟩
  -- reorderRules
  · intro ruleIds st' out hEq
    simp only [reorderRules] at hEq
    split at hEq
    · simp at hEq
    · next hfind =>
      split at hEq
      · simp at hEq
      · injection hEq with h1 h2
        subst h1
        have hall : ∀ i ∈ ruleIds, i ∈ l := by
          intro i hi
          have := List.find?_eq_none.mp hfind i hi
          simp only [Bool.not_eq_true'] at this
          rw [hentries] at this
          exact (any_isStr_map_iff l i).mp (by simpa using this)
        have hw : ∀ p ∈ ((List.range (ruleIds.filterMap
              (fun i => sget st.storage (ruleKey i))).length).zip
              (ruleIds.filterMap (fun i => sget st.storage (ruleKey i)))).map
              (fun p => ((p.2.getD "id").asKeyPart,
                (p.2.set "priority" (.num (p.1 : Int))).set "updatedAt" (.str c.nowIso))),
            p.1 ∈ l ∧ ruleIdOf p.2 = some p.1 := by
          intro p hp
          obtain ⟨q, hq, rfl⟩ := List.mem_map.mp hp
          have hr : q.2 ∈ ruleIds.filterMap (fun i => sget st.storage (ruleKey i)) :=
            (List.of_mem_zip hq).2
          obtain ⟨i, hi, hsr⟩ := List.mem_filterMap.mp hr
          have hil : i ∈ l := hall i hi
          obtain ⟨r0, hr0, hid0⟩ := (hiff i).mp hil
          rw [hr0] at hsr
          cases hsr
          obtain ⟨-, -, -, -, hK⟩ := ruleIdOf_elim hid0
          constructor
          · rw [hK]
            exact hil
          · rw [hK, ruleIdOf_set_ne _ "updatedAt" _ (by decide),
              ruleIdOf_set_ne _ "priority" _ (by decide)]
            exact hid0
        obtain ⟨hA, hB⟩ := coherent_foldl_writes _ st.storage l hl hiff hw
        exact ⟨l, hA, hB⟩

/-- The versioned fixture satisfies the coherence invariant. -/
theorem coherent_versionedState : CoherentIdx versionedState.storage := by
  refine ⟨["a"], rfl, ?_⟩
  intro id
  constructor
  · intro hmem
    simp only [List.mem_cons, List.not_mem_nil, or_false] at hmem
    subst hmem
    exact ⟨sampleRule "a" 0, rfl, rfl⟩
  · rintro ⟨r, hr, hrid⟩
    simp only [versionedState, sget] at hr
    split at hr
    · next hkey =>
      cases hr
      simp [ruleIdOf, Jv.get] at hrid
    · split at hr
      · next hkey =>
        have : id = "a" := (ruleKey_inj hkey).symm
        simp [this]
      · split at hr
        · next hkey => exact absurd hkey.symm (ruleKey_ne_versionsKey id "a")
        · cases hr

/-- Witness for the amended C10 theorem: every operation run at a concrete
coherent state yields a coherent state. -/
theorem c10_index_key_coherence_witness :
    CoherentIdx (addRule trivialHost tick twoRuleState (sampleRule "c" 2)).1.storage
  ∧ CoherentIdx (updateRule trivialHost tick twoRuleState "a"
      (sampleRule "a" 5)).1.storage
  ∧ CoherentIdx (deleteRule tick twoRuleState "a").1.storage
  ∧ CoherentIdx (revertRule tick versionedState "a" "uuid-1").1.storage
  ∧ CoherentIdx (reorderRules tick twoRuleState ["b", "a"]).1.storage := by
  refine ⟨?_, ?_, ?_, ?_, ?_⟩
  · exact (c10_index_key_coherence trivialHost tick twoRuleState
      coherent_twoRuleState).1 (sampleRule "c" 2) "c" _
      (((sampleRule "c" 2).set "createdAt" (.str tick.nowIso)).set "updatedAt"
        (.str tick.nowIso)) (by rfl) rfl (by decide)
  · exact (c10_index_key_coherence trivialHost tick twoRuleState
      coherent_twoRuleState).2.1 "a" (sampleRule "a" 5) (sampleRule "a" 0) _
      (((sampleRule "a" 5).remove "createdAt").set "updatedAt" (.str tick.nowIso))
      (by rfl) rfl rfl rfl
  · exact (c10_index_key_coherence trivialHost tick twoRuleState
      coherent_twoRuleState).2.2.1 "a" _ (by rfl) (by decide)
  · refine (c10_index_key_coherence trivialHost tick versionedState
      coherent_versionedState).2.2.2.1 "a" "uuid-1" _
      ((sampleRule "a" 9).set "updatedAt" (.str tick.nowIso)) (by rfl) (by decide)
      ?_ ?_
    · intro version hfind
      cases hfind
      rfl
    · intro cur hc
      cases hc
      rfl
  · exact (c10_index_key_coherence trivialHost tick twoRuleState
      coherent_twoRuleState).2.2.2.2 ["b", "a"] _
      [((sampleRule "b" 1).set "priority" (.num 0)).set "updatedAt" (.str tick.nowIso),
       ((sampleRule "a" 0).set "priority" (.num 1)).set "updatedAt" (.str tick.nowIso)]
      (by rfl)

end C10IndexCoherence
